import Mathlib

/-!
Verification development for the datacanvas core: the schema normalizer
(src/data/cleaning.py, clean_dataframe), the column-role classifier
(src/data/inference.py), the KPI calculator (src/analytics/kpis.py,
compute_kpis) and the trend-series bucketing shared with the chart
builder (src/visualization/charts.py, build_trend_chart).

The pandas DataFrame is modelled as an ordered list of named, dtype-tagged
columns of cells.  Missing values (NaN / NaT / None) are one cell
constructor.  Floating point numbers are modelled as exact rationals;
float NaN produced by aggregations is modelled explicitly where the code
can observe it.  pandas to_datetime is modelled on a restricted string
language (ISO dates, slash dates, day-first verbose dates) that exhibits
the behavioural differences between the two parse strategies the code
races: format mixed (month-first preference, no verbose ordinal support)
versus dayfirst plus dateutil (day-first preference, verbose ordinal
support).  Exceptions raised by the Python code are modelled with Except.
-/

namespace DC

/-- pandas column dtypes relevant to the core. -/
inductive Dtype where
  | obj
  | numeric
  | datetime
  | boolean
  deriving DecidableEq, Repr

/-- A calendar date (year, month, day). -/
structure CDate where
  y : Nat
  m : Nat
  d : Nat
  deriving DecidableEq, Repr

/-- One cell of a column: missing (NaN/NaT/None), a string, a float
(modelled as an exact rational), a timestamp, or a boolean. -/
inductive Cell where
  | na
  | str (s : String)
  | num (q : ℚ)
  | date (d : CDate)
  | bool (b : Bool)
  deriving DecidableEq, Repr

/-- A pandas column: a name, a dtype and the cell values. -/
structure Col where
  name : String
  dtype : Dtype
  cells : List Cell
  deriving DecidableEq, Repr

/-- A DataFrame: an ordered list of columns. -/
def Table := List Col

instance : DecidableEq Table := by unfold Table; infer_instance

def Cell.isNa : Cell → Bool
  | Cell.na => true
  | _ => false

/-- The string payload of a cell, when it is a string. -/
def Cell.str? : Cell → Option String
  | Cell.str s => some s
  | _ => none

/-- The numeric payload of a cell, when it is a number. -/
def Cell.num? : Cell → Option ℚ
  | Cell.num q => some q
  | _ => none

/-- The date payload of a cell, when it is a timestamp. -/
def Cell.date? : Cell → Option CDate
  | Cell.date d => some d
  | _ => none

/-- isna().all() over a column: every cell is missing.  Decides the
dropna(axis=1, how=all) removal in clean_dataframe. -/
def Col.allMissing (c : Col) : Bool := c.cells.all Cell.isNa

/-- Count of non-missing cells: notna().sum(). -/
def Col.nonNaCount (c : Col) : Nat := c.cells.countP (fun x => !x.isNa)

/-- Cells of a column match its declared dtype (a real pandas frame
always satisfies this). -/
def cellFits (d : Dtype) : Cell → Prop
  | Cell.na => True
  | Cell.str _ => d = Dtype.obj
  | Cell.num _ => d = Dtype.numeric
  | Cell.date _ => d = Dtype.datetime
  | Cell.bool _ => d = Dtype.boolean

/-- A well-typed column. -/
def Col.WF (c : Col) : Prop := ∀ x ∈ c.cells, cellFits c.dtype x

/-- df[name]: the first column carrying the name. -/
def lookup (t : Table) (n : String) : Option Col :=
  t.find? (fun c => c.name == n)

/-- len(df): the row count (all columns of a well-formed frame have the
same length; pandas reports that common length). -/
def Table.nrows (t : Table) : Nat :=
  match t with
  | [] => 0
  | c :: _ => c.cells.length

/-- df.shape[1]: the column count. -/
def Table.ncols (t : Table) : Nat := t.length

/-! ### Column-name normalization (clean_dataframe, name pass)

The source strips leading/trailing whitespace from each column name and
collapses every internal whitespace run to a single space:
str.strip() followed by str.replace of a whitespace-run regex by a space.
-/

/-- Python str whitespace (the ASCII fragment). -/
def isWS (c : Char) : Bool :=
  c = ' ' || c = '\t' || c = '\n' || c = '\r' || c = '\x0b' || c = '\x0c'

/-- str.strip(): drop leading and trailing whitespace. -/
def pyStrip (l : List Char) : List Char :=
  ((l.dropWhile isWS).reverse.dropWhile isWS).reverse

/-- Regex replacement of every maximal whitespace run by one space. -/
def collapseWS : List Char → List Char
  | [] => []
  | c :: rest =>
    if isWS c then ' ' :: collapseWS (rest.dropWhile isWS)
    else c :: collapseWS rest
termination_by l => l.length
decreasing_by
  · simp only [List.length_cons]
    exact Nat.lt_succ_of_le (List.dropWhile_suffix isWS).length_le
  · simp

/-- Column-name canonicalization applied by clean_dataframe. -/
def normName (s : String) : String := ⟨collapseWS (pyStrip s.data)⟩

/-- No leading whitespace character. -/
def NoLeadWS (l : List Char) : Prop := ∀ x, l.head? = some x → isWS x = false

/-- No trailing whitespace character. -/
def NoTrailWS (l : List Char) : Prop := ∀ x, l.getLast? = some x → isWS x = false

/-! ### Calendar model

Timestamps carry a calendar date (times of day play no role in the core:
the KPI date range prints calendar dates and the resampling buckets are
whole weeks or months). -/

def isLeap (y : Nat) : Bool := (y % 4 = 0 && y % 100 ≠ 0) || y % 400 = 0

def daysInMonth (y m : Nat) : Nat :=
  if m = 2 then (if isLeap y then 29 else 28)
  else if m = 4 ∨ m = 6 ∨ m = 9 ∨ m = 11 then 30
  else 31

/-- A parseable calendar date; years are restricted to four digits, as
produced by the modelled string formats. -/
def validYMD (y m d : Nat) : Bool :=
  1000 ≤ y && y ≤ 9999 && 1 ≤ m && m ≤ 12 && 1 ≤ d && d ≤ daysInMonth y m

/-- Days since the Unix epoch 1970-01-01 (the standard civil-calendar
conversion; the epoch day is a Thursday).  Backs Timestamp subtraction
(.days) and the resampling bucket keys. -/
def toDays (dt : CDate) : Int :=
  let y : Int := if dt.m ≤ 2 then (dt.y : Int) - 1 else (dt.y : Int)
  let era : Int := (if 0 ≤ y then y else y - 399) / 400
  let yoe : Int := y - era * 400
  let mp : Int := ((dt.m : Int) + 9) % 12
  let doy : Int := (153 * mp + 2) / 5 + (dt.d : Int) - 1
  let doe : Int := yoe * 365 + yoe / 4 - yoe / 100 + doy
  era * 146097 + doe - 719468

/-- Calendar-date ordering via the day number. -/
def cdLe (a b : CDate) : Bool := toDays a ≤ toDays b

/-! ### The two date-parse strategies of clean_dataframe

The source races pandas to_datetime with format equal to mixed against
to_datetime with dayfirst and no format (pandas 2.x semantics):

* format mixed guesses a format for each element separately and falls
  back to the dateutil parser on that element, so it is per-element
  dateutil parsing with a month-before-day preference on ambiguous
  slash dates; verbose ordinal dates such as 15th January 2024 parse
  through the dateutil fallback;
* to_datetime with dayfirst and no format guesses ONE strict format
  from the first non-missing element and applies it strictly to every
  element (failures coerce to NaT); only when no format can be guessed
  from that first element does it fall back to per-element dateutil
  parsing with a day-before-month preference.

The model realises both on a restricted string language - ISO dates,
slash dates and ordinal verbose dates - that exhibits exactly those
behavioural differences. -/

/-- Split a character list at every occurrence of a separator. -/
def splitOnChar (sep : Char) : List Char → List (List Char)
  | [] => [[]]
  | c :: rest =>
    let r := splitOnChar sep rest
    if c = sep then [] :: r
    else
      match r with
      | [] => [[c]]
      | g :: gs => (c :: g) :: gs

/-- Parse a nonempty all-digit token. -/
def parseNatDigits (l : List Char) : Option Nat :=
  if !l.isEmpty && l.all Char.isDigit then
    some (l.foldl (fun a c => a * 10 + (c.toNat - 48)) 0)
  else none

/-- A one- or two-digit day/month token. -/
def dayTok (l : List Char) : Option Nat :=
  if l.length = 1 ∨ l.length = 2 then parseNatDigits l else none

/-- A four-digit year token. -/
def yearTok (l : List Char) : Option Nat :=
  if l.length = 4 then parseNatDigits l else none

/-- ISO dash format YYYY-MM-DD (parsed identically by both strategies). -/
def parseIso (l : List Char) : Option CDate :=
  match splitOnChar '-' l with
  | [yt, mt, dt] =>
    match yearTok yt, dayTok mt, dayTok dt with
    | some y, some m, some d => if validYMD y m d then some ⟨y, m, d⟩ else none
    | _, _, _ => none
  | _ => none

/-- The two numeric components and year of a slash date A/B/YYYY. -/
def slashParts (l : List Char) : Option (Nat × Nat × Nat) :=
  match splitOnChar '/' l with
  | [at_, bt, yt] =>
    match dayTok at_, dayTok bt, yearTok yt with
    | some a, some b, some y => some (a, b, y)
    | _, _, _ => none
  | _ => none

/-- Month names accepted by the verbose format. -/
def monthName (l : List Char) : Option Nat :=
  if l = "January".data then some 1
  else if l = "February".data then some 2
  else if l = "March".data then some 3
  else if l = "April".data then some 4
  else if l = "May".data then some 5
  else if l = "June".data then some 6
  else if l = "July".data then some 7
  else if l = "August".data then some 8
  else if l = "September".data then some 9
  else if l = "October".data then some 10
  else if l = "November".data then some 11
  else if l = "December".data then some 12
  else none

/-- Verbose ordinal day-first format, e.g. 15th January 2024: parsed by
the dateutil parser (whatever the dayfirst flag), but no strict
strptime format can be guessed from it. -/
def parseOrdinalVerbose (l : List Char) : Option CDate :=
  match splitOnChar ' ' l with
  | [dTok, mTok, yt] =>
    if 3 ≤ dTok.length then
      let ds := dTok.take (dTok.length - 2)
      let suf := dTok.drop (dTok.length - 2)
      if suf = "st".data ∨ suf = "nd".data ∨ suf = "rd".data ∨ suf = "th".data then
        match parseNatDigits ds, monthName mTok, yearTok yt with
        | some d, some m, some y => if validYMD y m d then some ⟨y, m, d⟩ else none
        | _, _, _ => none
      else none
    else none
  | _ => none

/-- The dateutil parser on the modelled string language: ISO dates,
slash dates (first-slot preference decided by the dayfirst flag) and
verbose ordinal dates. -/
def dateutilParse (dayfirst : Bool) (s : String) : Option CDate :=
  match parseIso s.data with
  | some d => some d
  | none =>
    match slashParts s.data with
    | some (a, b, y) =>
      if dayfirst then
        if validYMD y b a then some ⟨y, b, a⟩
        else if validYMD y a b then some ⟨y, a, b⟩
        else none
      else
        if validYMD y a b then some ⟨y, a, b⟩
        else if validYMD y b a then some ⟨y, b, a⟩
        else none
    | none => parseOrdinalVerbose s.data

/-- Strategy 1 of clean_dataframe: to_datetime with errors coerce and
format mixed.  Per-element format guessing with the dateutil fallback
on each element is, extensionally, per-element dateutil parsing with a
month-before-day preference on ambiguous slash dates; the dateutil
fallback also parses the verbose ordinal format. -/
def parseMixed (s : String) : Option CDate := dateutilParse false s

/-- The strict strptime formats the dayfirst strategy can guess from
one string of the modelled language. -/
inductive Fmt where
  | isoDash
  | slashDMY
  | slashMDY
deriving DecidableEq, Repr

/-- guess_datetime_format with the dayfirst hint: the one strict format
read off a single string.  Slash dates prefer the day-before-month
reading; verbose ordinal dates and junk yield no format. -/
def guessFormatDayfirst (s : String) : Option Fmt :=
  match parseIso s.data with
  | some _ => some Fmt.isoDash
  | none =>
    match slashParts s.data with
    | some (a, b, y) =>
      if validYMD y b a then some Fmt.slashDMY
      else if validYMD y a b then some Fmt.slashMDY
      else none
    | none => none

/-- Strict parsing of one string with one guessed format
(array_strptime): a string not matching the format fails. -/
def strptimeFmt (f : Fmt) (s : String) : Option CDate :=
  match f with
  | Fmt.isoDash => parseIso s.data
  | Fmt.slashDMY =>
    match slashParts s.data with
    | some (a, b, y) => if validYMD y b a then some ⟨y, b, a⟩ else none
    | none => none
  | Fmt.slashMDY =>
    match slashParts s.data with
    | some (a, b, y) => if validYMD y a b then some ⟨y, a, b⟩ else none
    | none => none

/-- One element of to_datetime with dayfirst and no format (strategy 2,
pandas 2.x): parsed strictly with the format guessed from the first
non-missing element when one was found, and by per-element dateutil
parsing with the dayfirst preference when no format could be guessed. -/
def parseDayfirstElem (fmt? : Option Fmt) (s : String) : Option CDate :=
  match fmt? with
  | some f => strptimeFmt f s
  | none => dateutilParse true s

/-- The format to_datetime with dayfirst guesses from a string list:
read off the first element. -/
def guessFromFirst (sample : List String) : Option Fmt :=
  match sample with
  | [] => none
  | s :: _ => guessFormatDayfirst s

/-- Strategy 2 run over the sample: one format guessed from the first
sample element, then every element parsed with it (dateutil fallback
for the whole call when nothing could be guessed). -/
def parseDayfirstList (sample : List String) : List (Option CDate) :=
  sample.map (parseDayfirstElem (guessFromFirst sample))

/-- parsed.notna().mean() for strategy 2 over the sample. -/
def sampleRateDayfirst (sample : List String) : ℚ :=
  ((parseDayfirstList sample).countP (fun r => r.isSome) : ℚ) /
    (sample.length : ℚ)

/-- The first non-missing element of an object column: the element
to_datetime guesses the strict format from. -/
def firstStr (cells : List Cell) : Option String :=
  (cells.filterMap Cell.str?).head?

/-! ### clean_dataframe (src/data/cleaning.py) -/

/-- The column-name pass: out.columns.astype(str).str.strip()
.str.replace of whitespace runs by a space. -/
def renameCol (c : Col) : Col := ⟨normName c.name, c.dtype, c.cells⟩

/-- One column sample: out[col].dropna().astype(str).head(100).  (Object
columns produced by CSV ingestion hold strings and missing values, so
dropna plus astype(str) yields exactly the string cells.) -/
def sampleOf (c : Col) : List String := (c.cells.filterMap Cell.str?).take 100

/-- parsed.notna().mean() for a strategy run over the sample:
the success rate. -/
def sampleRate (p : String → Option CDate) (sample : List String) : ℚ :=
  (sample.countP (fun s => (p s).isSome) : ℚ) / (sample.length : ℚ)

/-- to_datetime with errors coerce over one cell of the full column:
missing stays missing, a string parses or becomes NaT. -/
def fullParseCell (p : String → Option CDate) : Cell → Cell
  | Cell.na => Cell.na
  | Cell.str s =>
    match p s with
    | some d => Cell.date d
    | none => Cell.na
  | _ => Cell.na

/-- to_datetime with errors coerce over the full column. -/
def fullParse (p : String → Option CDate) (cells : List Cell) : List Cell :=
  cells.map (fullParseCell p)

/-- parsed_full.notna().mean(): the full-column success rate (the mean
runs over every row, so original missing rows count as failures). -/
def fullRate (p : String → Option CDate) (cells : List Cell) : ℚ :=
  ((fullParse p cells).countP (fun x => !x.isNa) : ℚ) / (cells.length : ℚ)

/-- The format the full-column dayfirst call guesses: read off the
first non-missing element of the column. -/
def fullGuess (cells : List Cell) : Option Fmt :=
  match firstStr cells with
  | some s => guessFormatDayfirst s
  | none => none

/-- Strategy 2 run over the full column: to_datetime with errors coerce
and dayfirst, the one format guessed from the first non-missing element
of the column. -/
def fullParseDayfirst (cells : List Cell) : List Cell :=
  fullParse (parseDayfirstElem (fullGuess cells)) cells

/-- best_success_rate after strategy 1 was scored (it starts at 0.0 and
is replaced when the strategy scores strictly higher). -/
def bestRate1 (sample : List String) : ℚ :=
  if sampleRate parseMixed sample > 0 then sampleRate parseMixed sample else 0

/-- best_parsed is not None after strategy 1 was scored. -/
def bestSome1 (sample : List String) : Bool :=
  sampleRate parseMixed sample > 0

/-- best_success_rate after strategy 2, which is attempted only when the
running best is below 0.8 and wins only when strictly higher. -/
def bestRate2 (sample : List String) : ℚ :=
  if bestRate1 sample < 4/5 then
    if sampleRateDayfirst sample > bestRate1 sample then
      sampleRateDayfirst sample
    else bestRate1 sample
  else bestRate1 sample

/-- best_parsed is not None after strategy 2. -/
def bestSome2 (sample : List String) : Bool :=
  if bestRate1 sample < 4/5 then
    if sampleRateDayfirst sample > bestRate1 sample then true
    else bestSome1 sample
  else bestSome1 sample

/-- Lines 74-81 of cleaning.py: the full column is re-parsed with the
format-mixed strategy, and only if that full-column rate falls more than
0.1 below the winning sample rate is the dayfirst full parse used. -/
def chosenFullParse (cells : List Cell) (best : ℚ) : List Cell :=
  if fullRate parseMixed cells < best - 1/10 then fullParseDayfirst cells
  else fullParse parseMixed cells

/-- Lines 47-82 of cleaning.py: the per-column date heuristic.  For an
object column with a nonempty sample the two strategies are raced over
the sample, and if the winning rate reaches 0.5 the column is replaced
by a full-column parse chosen by chosenFullParse. -/
def parseStep (c : Col) : Col :=
  if c.dtype = Dtype.obj then
    if (sampleOf c).isEmpty then c
    else
      if bestRate2 (sampleOf c) ≥ 1/2 then
        if bestSome2 (sampleOf c) then
          ⟨c.name, Dtype.datetime, chosenFullParse c.cells (bestRate2 (sampleOf c))⟩
        else c
      else c
  else c

/-- clean_dataframe (cleaning.py lines 22-84): normalize column names,
drop all-missing columns (dropna with axis 1 and how all), then run the
date heuristic over every column. -/
def clean_dataframe (t : Table) : Table :=
  ((t.map renameCol).filter (fun c => !c.allMissing)).map parseStep

/-- Example object column for the strategy-race analysis: two ISO
dates, one ambiguous slash date and three missing cells.  The mixed
strategy parses the whole sample (rate 1.0, so strategy 2 is never
attempted and mixed wins the race), but the three missing rows pull
its full-column rate down to 0.5, below 1.0 minus 0.1. -/
def c1Col : Col :=
  ⟨"d", Dtype.obj,
    [Cell.str "2024-01-05", Cell.str "2024-01-06", Cell.str "05/01/2024",
     Cell.na, Cell.na, Cell.na]⟩

/-- A small all-ISO object column on which the chosen full parse is the
sample winner's. -/
def c1wCol : Col :=
  ⟨"w", Dtype.obj, [Cell.str "2024-02-01", Cell.str "2024-02-02"]⟩

/-! ### infer_metric_column (src/data/inference.py) -/

/-- A Python float appearing in a sort key: NaN compares false against
everything. -/
inductive PFloat where
  | nan
  | val (q : ℚ)
  deriving DecidableEq, Repr

/-- Python float less-than: every comparison involving NaN is false. -/
def PFloat.lt : PFloat → PFloat → Bool
  | PFloat.val a, PFloat.val b => a < b
  | _, _ => false

/-- Python tuple less-than on an (int, float) score pair. -/
def pyKeyLt (a b : Int × PFloat) : Bool :=
  a.1 < b.1 || (a.1 = b.1 && PFloat.lt a.2 b.2)

/-- pandas is_numeric_dtype: holds for numeric and boolean columns. -/
def isNumericDtype (d : Dtype) : Bool :=
  d = Dtype.numeric || d = Dtype.boolean

/-- Numeric view of a cell for aggregation (booleans count as 0/1). -/
def Cell.asNum : Cell → Option ℚ
  | Cell.num q => some q
  | Cell.bool b => some (if b then 1 else 0)
  | _ => none

/-- The non-missing numeric values of a column. -/
def Col.numsOf (c : Col) : List ℚ := c.cells.filterMap Cell.asNum

/-- Sample variance (ddof 1): sum of squared deviations from the mean
over (n - 1).  Meaningful for two or more values. -/
def sampleVar (l : List ℚ) : ℚ :=
  let n : ℚ := l.length
  let mean := l.sum / n
  ((l.map (fun x => (x - mean) * (x - mean))).sum) / (n - 1)

/-- Series.var(skipna=True): NaN when fewer than two non-missing
values, otherwise the sample variance. -/
def Col.pyVar (c : Col) : PFloat :=
  if 2 ≤ c.numsOf.length then PFloat.val (sampleVar c.numsOf) else PFloat.nan

/-- float(var or 0.0): the Python or keeps a truthy left operand; 0.0
is falsy (replaced by 0.0, a no-op) but NaN is truthy and passes
through, so NaN is NOT replaced by 0.0. -/
def pyOrZero : PFloat → PFloat
  | PFloat.val q => if q = 0 then PFloat.val 0 else PFloat.val q
  | PFloat.nan => PFloat.nan

/-- The name-based penalty: minus 2 when the lower-cased column name
contains id, postcode or zip as a substring. -/
def namePenalty (name : String) : Int :=
  let lower := name.data.map Char.toLower
  if ("id".data <:+: lower) ∨ ("postcode".data <:+: lower) ∨ ("zip".data <:+: lower) then
    -2
  else 0

/-- score(col) from infer_metric_column (inference.py lines 44-50). -/
def metricScore (c : Col) : Int × PFloat :=
  (namePenalty c.name + (c.nonNaCount : Int), pyOrZero c.pyVar)

/-- Stable descending insertion: the new element goes behind every
element whose key is not Python-less than its key. -/
def insDesc (key : Col → Int × PFloat) (x : Col) : List Col → List Col
  | [] => [x]
  | y :: ys => if pyKeyLt (key y) (key x) then x :: y :: ys else y :: insDesc key x ys

/-- Python sorted(candidates, key=score, reverse=True): a stable
descending sort. -/
def pySortDesc (key : Col → Int × PFloat) (l : List Col) : List Col :=
  l.foldl (fun acc x => insDesc key x acc) []

/-- infer_metric_column (inference.py lines 27-55): numeric candidates
sorted by score descending, first one returned. -/
def infer_metric_column (t : Table) : Option String :=
  match pySortDesc metricScore (t.filter (fun c => isNumericDtype c.dtype)) with
  | [] => none
  | c :: _ => some c.name

/-- Modelled from the spec for comparison in C4: the claim's score, in
which the variance of a constant or empty (fewer than two values)
column is treated as 0 rather than NaN. -/
def specMetricKey (c : Col) : Int × ℚ :=
  (namePenalty c.name + (c.nonNaCount : Int),
   if 2 ≤ c.numsOf.length then sampleVar c.numsOf else 0)

/-- Lexicographic strict order on the spec score. -/
def specKeyLtB (a b : Int × ℚ) : Bool := a.1 < b.1 || (a.1 = b.1 && a.2 < b.2)

/-- The running best of the Python sort comparisons: the first element
whose key no later element Python-exceeds. -/
def pyPick (key : Col → Int × PFloat) (l : List Col) : Option Col :=
  l.foldl
    (fun acc x =>
      match acc with
      | none => some x
      | some a => if pyKeyLt (key a) (key x) then some x else some a)
    none

/-- First maximum under the spec key (stable: ties keep the earlier). -/
def specPick (l : List Col) : Option Col :=
  l.foldl
    (fun acc x =>
      match acc with
      | none => some x
      | some a => if specKeyLtB (specMetricKey a) (specMetricKey x) then some x else some a)
    none

/-- Modelled from the spec for comparison in C4: the candidate with the
lexicographically greatest spec score, earliest on ties. -/
def specMetricSelect (t : Table) : Option Col :=
  specPick (t.filter (fun c => isNumericDtype c.dtype))

/-- Example columns for the variance-quirk analysis: a numeric column
with one non-missing value (sample variance NaN) and an id-named
numeric column with three values (penalty minus 2, variance 100).  Both
score first component 1. -/
def c4ColA : Col := ⟨"a", Dtype.numeric, [Cell.num 5, Cell.na, Cell.na]⟩

def c4ColB : Col := ⟨"xid", Dtype.numeric, [Cell.num 0, Cell.num 10, Cell.num 20]⟩

def c4Table : Table := [c4ColA, c4ColB]

/-- Example table on which every numeric candidate has at least two
non-missing values. -/
def c4wTable : Table :=
  [⟨"a", Dtype.numeric, [Cell.num 0, Cell.num 10]⟩,
   ⟨"b", Dtype.numeric, [Cell.num 1, Cell.num 2, Cell.num 3]⟩]

/-- Example table for the trend computations: ten consecutive January
2024 days (the first is a Monday) and a constant metric 1. -/
def c6Table : Table :=
  [⟨"d", Dtype.datetime,
    [Cell.date ⟨2024, 1, 1⟩, Cell.date ⟨2024, 1, 2⟩, Cell.date ⟨2024, 1, 3⟩,
     Cell.date ⟨2024, 1, 4⟩, Cell.date ⟨2024, 1, 5⟩, Cell.date ⟨2024, 1, 6⟩,
     Cell.date ⟨2024, 1, 7⟩, Cell.date ⟨2024, 1, 8⟩, Cell.date ⟨2024, 1, 9⟩,
     Cell.date ⟨2024, 1, 10⟩]⟩,
   ⟨"m", Dtype.numeric,
    [Cell.num 1, Cell.num 1, Cell.num 1, Cell.num 1, Cell.num 1, Cell.num 1,
     Cell.num 1, Cell.num 1, Cell.num 1, Cell.num 1]⟩]

/-- The typed joint rows of c6Table. -/
def c6Rows : List (CDate × ℚ) :=
  [(⟨2024, 1, 1⟩, 1), (⟨2024, 1, 2⟩, 1), (⟨2024, 1, 3⟩, 1), (⟨2024, 1, 4⟩, 1),
   (⟨2024, 1, 5⟩, 1), (⟨2024, 1, 6⟩, 1), (⟨2024, 1, 7⟩, 1), (⟨2024, 1, 8⟩, 1),
   (⟨2024, 1, 9⟩, 1), (⟨2024, 1, 10⟩, 1)]

/-! ### Time bucketing (kpis.py lines 46-52 and charts.py lines 21-24) -/

/-- The rows of df[[date_col, metric_col]] as positional pairs. -/
def pairedRows (dateCells metricCells : List Cell) : List (Cell × Cell) :=
  dateCells.zip metricCells

/-- .dropna() over the two-column frame: keep rows with both present. -/
def dropnaPairs (rows : List (Cell × Cell)) : List (Cell × Cell) :=
  rows.filter (fun r => !r.1.isNa && !r.2.isNa)

/-- The retained rows as typed (date, metric) pairs; none models the
TypeError the datetime pipeline raises when the date values are not
timestamps (or the metric values not numeric). -/
def typedRows : List (Cell × Cell) → Option (List (CDate × ℚ))
  | [] => some []
  | (c1, c2) :: rest =>
    match c1.date?, c2.asNum, typedRows rest with
    | some d, some q, some r => some ((d, q) :: r)
    | _, _, _ => none

/-- Stable ascending insertion by date. -/
def insAsc (x : CDate × ℚ) : List (CDate × ℚ) → List (CDate × ℚ)
  | [] => [x]
  | y :: ys => if toDays y.1 ≤ toDays x.1 then y :: insAsc x ys else x :: y :: ys

/-- tmp.sort_values(date_col): a stable ascending sort by date. -/
def sortByDate (rows : List (CDate × ℚ)) : List (CDate × ℚ) :=
  rows.foldl (fun acc x => insAsc x acc) []

/-- The smallest date of the rows (tmp[date_col].min()). -/
def minDateOf (rows : List (CDate × ℚ)) : CDate :=
  match rows with
  | [] => ⟨1970, 1, 1⟩
  | r :: rs => rs.foldl (fun a x => if toDays x.1 < toDays a then x.1 else a) r.1

/-- The largest date of the rows (tmp[date_col].max()). -/
def maxDateOf (rows : List (CDate × ℚ)) : CDate :=
  match rows with
  | [] => ⟨1970, 1, 1⟩
  | r :: rs => rs.foldl (fun a x => if toDays a < toDays x.1 then x.1 else a) r.1

/-- The two resample frequencies the code chooses between. -/
inductive Freq where
  | ms
  | wmon
  deriving DecidableEq, Repr

/-- The Monday ending the week that contains the given day (resample
W-MON labels bins by their Monday right edge; the epoch day 0 is a
Thursday, so weekday (d + 3) mod 7 has Monday as 0). -/
def weekKey (d : Int) : Int := d + (7 - (d + 3) % 7) % 7

/-- Month counter of a date. -/
def monthIdx (dt : CDate) : Nat := dt.y * 12 + (dt.m - 1)

/-- Day number of the first day of a month counter (resample MS labels
bins by the month start). -/
def monthStartDays (ym : Nat) : Int := toDays ⟨ym / 12, ym % 12 + 1, 1⟩

/-- The bucket label a date falls into. -/
def bucketKey (f : Freq) (dt : CDate) : Int :=
  match f with
  | Freq.ms => monthStartDays (monthIdx dt)
  | Freq.wmon => weekKey (toDays dt)

/-- The full regular grid of bucket labels from the first to the last
populated bucket (resample emits empty intermediate buckets too). -/
def gridKeys (f : Freq) (lo hi : CDate) : List Int :=
  match f with
  | Freq.ms =>
    (List.range (monthIdx hi - monthIdx lo + 1)).map
      (fun i => monthStartDays (monthIdx lo + i))
  | Freq.wmon =>
    (List.range (((weekKey (toDays hi) - weekKey (toDays lo)).toNat / 7) + 1)).map
      (fun i => weekKey (toDays lo) + 7 * (i : Int))

/-- The metric total of one bucket (missing rows were already dropped;
an empty bucket sums to 0). -/
def bucketSum (f : Freq) (rows : List (CDate × ℚ)) (k : Int) : ℚ :=
  ((rows.filter (fun r => bucketKey f r.1 = k)).map (fun r => r.2)).sum

/-- set_index(date).resample(freq)[metric].sum(): the bucketed series,
one (period start, total) pair per grid bucket. -/
def resampleSum (f : Freq) (rows : List (CDate × ℚ)) : List (Int × ℚ) :=
  (gridKeys f (minDateOf rows) (maxDateOf rows)).map (fun k => (k, bucketSum f rows k))

/-- kpis.py lines 49-52: sort by date, span in whole days, monthly when
the span reaches 60 days else weekly, then resample-sum. -/
def kpiSeriesOf (rows : List (CDate × ℚ)) : List (Int × ℚ) :=
  let sorted := sortByDate rows
  let span := toDays (maxDateOf sorted) - toDays (minDateOf sorted)
  let freq := if 60 ≤ span then Freq.ms else Freq.wmon
  resampleSum freq sorted

/-- charts.py lines 21-24: the series behind build_trend_chart -
dropna, sort by date, the same span rule, the same resample-sum.
(none models the crash on non-datetime data.) -/
def build_trend_series (t : Table) (d m : String) : Option (List (Int × ℚ)) :=
  match lookup t d, lookup t m with
  | some cd, some cm =>
    match typedRows (dropnaPairs (pairedRows cd.cells cm.cells)) with
    | some rows =>
      let sorted := sortByDate rows
      let span := toDays (maxDateOf sorted) - toDays (minDateOf sorted)
      let freq := if 60 ≤ span then Freq.ms else Freq.wmon
      some (resampleSum freq sorted)
    | none => none
  | _, _ => none

/-! ### compute_kpis (src/analytics/kpis.py) -/

/-- A rendered KPI value.  The count constructor stands for the
thousands-separated integer rendering, numFmt for the two-decimal float
rendering, dash for the em-dash placeholder, dateRange for the
min-arrow-max calendar rendering and pctFmt for the signed one-decimal
percent rendering. -/
inductive Val where
  | count (n : Nat)
  | numFmt (q : ℚ)
  | dash
  | dateRange (a b : CDate)
  | pctFmt (q : ℚ)
  deriving DecidableEq, Repr

/-- The scalar outcome of a pandas reduction as Python sees it. -/
inductive PyScalar where
  | num (q : ℚ)
  | nan
  | strv (s : String)
  deriving DecidableEq, Repr

/-- df[col].sum(skipna=True) by dtype: numeric and boolean columns sum
the non-missing values (the empty sum is 0.0, not NaN); object columns
of strings concatenate (and a mixed object column raises); datetime
columns refuse sum with a TypeError. -/
def pySum (c : Col) : Except String PyScalar :=
  match c.dtype with
  | Dtype.numeric => Except.ok (PyScalar.num c.numsOf.sum)
  | Dtype.boolean => Except.ok (PyScalar.num c.numsOf.sum)
  | Dtype.datetime => Except.error "TypeError: datetime64 does not support sum"
  | Dtype.obj =>
    if (c.cells.filter (fun x => !x.isNa)).all (fun x => x.str?.isSome) then
      if (c.cells.filterMap Cell.str?).isEmpty then Except.ok (PyScalar.num 0)
      else Except.ok (PyScalar.strv (String.join (c.cells.filterMap Cell.str?)))
    else Except.error "TypeError: unsupported operand types"

/-- df[col].mean(skipna=True): numeric and boolean columns divide by
the non-missing count (NaN for an empty set); an object column of
strings raises; the datetime case is unreachable because sum already
raised. -/
def pyMean (c : Col) : Except String PyScalar :=
  match c.dtype with
  | Dtype.numeric =>
    if c.numsOf.isEmpty then Except.ok PyScalar.nan
    else Except.ok (PyScalar.num (c.numsOf.sum / (c.numsOf.length : ℚ)))
  | Dtype.boolean =>
    if c.numsOf.isEmpty then Except.ok PyScalar.nan
    else Except.ok (PyScalar.num (c.numsOf.sum / (c.numsOf.length : ℚ)))
  | Dtype.datetime => Except.error "TypeError: datetime64 mean after sum raised"
  | Dtype.obj =>
    if (c.cells.filter (fun x => !x.isNa)).isEmpty then Except.ok PyScalar.nan
    else Except.error "TypeError: could not convert string to numeric"

/-- The f-string with the np.isfinite guard (kpis.py lines 43-44): a
finite number renders two-decimal, NaN renders the em-dash, and
np.isfinite of a string raises. -/
def formatAggregate (x : PyScalar) : Except String Val :=
  match x with
  | PyScalar.num q => Except.ok (Val.numFmt q)
  | PyScalar.nan => Except.ok Val.dash
  | PyScalar.strv _ => Except.error "TypeError: isfinite not supported for str"

/-- The smallest date of a list (default only reached on empty input). -/
def minD (l : List CDate) : CDate :=
  match l with
  | [] => ⟨1970, 1, 1⟩
  | d :: ds => ds.foldl (fun a x => if toDays x < toDays a then x else a) d

/-- The largest date of a list. -/
def maxD (l : List CDate) : CDate :=
  match l with
  | [] => ⟨1970, 1, 1⟩
  | d :: ds => ds.foldl (fun a x => if toDays a < toDays x then x else a) d

/-- kpis.py lines 34-38: if date_col is truthy, take min and max of the
column skipping missing values; when both are non-missing, emit the
date-range entry via .date().  A nonempty column of any non-datetime
dtype makes the .date() attribute access raise. -/
def dateRangePart (t : Table) (dc : Option String) : Except String (List (String × Val)) :=
  match dc with
  | none => Except.ok []
  | some d =>
    if d = "" then Except.ok []
    else
      match lookup t d with
      | none => Except.error "KeyError"
      | some c =>
        if (c.cells.filter (fun x => !x.isNa)).isEmpty then Except.ok []
        else
          match c.dtype with
          | Dtype.datetime =>
            Except.ok
              [("Date range",
                Val.dateRange (minD (c.cells.filterMap Cell.date?))
                  (maxD (c.cells.filterMap Cell.date?)))]
          | _ => Except.error "AttributeError: object has no attribute date"

/-- kpis.py lines 46-60: the period-over-period trend, computed only
when date_col is also truthy, at least 10 jointly non-missing rows
remain, and the bucketed series has at least 2 buckets.  The division
by zero is guarded with the em-dash. -/
def trendPart (t : Table) (dc : Option String) (cm : Col) :
    Except String (List (String × Val)) :=
  match dc with
  | none => Except.ok []
  | some d =>
    if d = "" then Except.ok []
    else
      match lookup t d with
      | none => Except.error "KeyError"
      | some cd =>
        if 10 ≤ (dropnaPairs (pairedRows cd.cells cm.cells)).length then
          match typedRows (dropnaPairs (pairedRows cd.cells cm.cells)) with
          | none => Except.error "TypeError: trend pipeline on untyped data"
          | some rows =>
            if 2 ≤ (kpiSeriesOf rows).length then
              if ((kpiSeriesOf rows).getD ((kpiSeriesOf rows).length - 2) (0, 0)).2 ≠ 0 then
                Except.ok
                  [("Change vs prev period",
                    Val.pctFmt
                      ((((kpiSeriesOf rows).getLastD (0, 0)).2 -
                          ((kpiSeriesOf rows).getD ((kpiSeriesOf rows).length - 2) (0, 0)).2) /
                        |((kpiSeriesOf rows).getD ((kpiSeriesOf rows).length - 2) (0, 0)).2| *
                        100))]
              else Except.ok [("Change vs prev period", Val.dash)]
            else Except.ok []
        else Except.ok []

/-- kpis.py lines 40-60: if metric_col is truthy, sum and mean with the
isfinite guard, then the nested trend block. -/
def metricPart (t : Table) (dc mc : Option String) : Except String (List (String × Val)) :=
  match mc with
  | none => Except.ok []
  | some m =>
    if m = "" then Except.ok []
    else
      match lookup t m with
      | none => Except.error "KeyError"
      | some c =>
        match pySum c with
        | Except.error e => Except.error e
        | Except.ok total =>
          match pyMean c with
          | Except.error e => Except.error e
          | Except.ok avg =>
            match formatAggregate total with
            | Except.error e => Except.error e
            | Except.ok tv =>
              match formatAggregate avg with
              | Except.error e => Except.error e
              | Except.ok av =>
                match trendPart t dc c with
                | Except.error e => Except.error e
                | Except.ok trend =>
                  Except.ok (("Total " ++ m, tv) :: ("Average " ++ m, av) :: trend)

/-- compute_kpis (kpis.py lines 8-62): row and column counts first,
then the optional date range, metric total/average and trend entries,
in source order.  An uncaught Python exception surfaces as error. -/
def compute_kpis (t : Table) (dc mc : Option String) :
    Except String (List (String × Val)) :=
  match dateRangePart t dc with
  | Except.error e => Except.error e
  | Except.ok part1 =>
    match metricPart t dc mc with
    | Except.error e => Except.error e
    | Except.ok part2 =>
      Except.ok ([("Rows", Val.count t.nrows), ("Columns", Val.count t.ncols)] ++
        part1 ++ part2)

theorem countP_pos_of_rate {α} {p : α → Bool} {l : List α} {n : Nat} {q : ℚ} (hq : 0 < q)
    (h : q ≤ (l.countP p : ℚ) / (n : ℚ)) : 0 < l.countP p := by
  by_contra h0
  push_neg at h0
  have hz : l.countP p = 0 := Nat.le_zero.mp h0
  rw [hz] at h
  norm_num at h
  linarith

theorem dropWhile_noLead (l : List Char) : NoLeadWS (l.dropWhile isWS) := by
  intro x hx
  induction l with
  | nil => simp at hx
  | cons a as ih =>
    by_cases h : isWS a
    · rw [List.dropWhile_cons_of_pos h] at hx
      exact ih hx
    · rw [List.dropWhile_cons_of_neg h] at hx
      simp at hx
      rw [← hx]
      exact eq_false_of_ne_true h

theorem noLead_dropWhile_eq {l : List Char} (h : NoLeadWS l) : l.dropWhile isWS = l := by
  cases l with
  | nil => rfl
  | cons a as =>
    have := h a (by simp)
    rw [List.dropWhile_cons_of_neg (by simp [this])]

theorem collapseWS_nil : collapseWS [] = [] := by rw [collapseWS]

theorem collapseWS_ne_nil {l : List Char} (h : l ≠ []) : collapseWS l ≠ [] := by
  cases l with
  | nil => exact absurd rfl h
  | cons a as =>
    rw [collapseWS]
    by_cases hw : isWS a <;> simp [hw]

theorem collapseWS_noLead {l : List Char} (h : NoLeadWS l) : NoLeadWS (collapseWS l) := by
  cases l with
  | nil => intro x hx; simp [collapseWS_nil] at hx
  | cons a as =>
    have ha := h a (by simp)
    rw [collapseWS, if_neg (by simp [ha])]
    intro x hx
    simp at hx
    rw [← hx]
    exact ha

theorem getLast?_cons_of_ne_nil {a : Char} {l : List Char} (h : l ≠ []) :
    (a :: l).getLast? = l.getLast? := by
  cases l with
  | nil => exact absurd rfl h
  | cons b bs => exact List.getLast?_cons_cons

theorem getLast?_mem {l : List Char} {x : Char} (h : l.getLast? = some x) : x ∈ l := by
  obtain ⟨hne, rfl⟩ := List.mem_getLast?_eq_getLast (l := l) (x := x) h
  exact List.getLast_mem hne

theorem suffix_getLast? {l s : List Char} (h : s <:+ l) (hne : s ≠ []) :
    l.getLast? = s.getLast? := by
  obtain ⟨p, rfl⟩ := h
  exact List.getLast?_append_of_ne_nil p hne

theorem collapseWS_noTrail_aux :
    ∀ n (l : List Char), l.length ≤ n → NoTrailWS l → NoTrailWS (collapseWS l) := by
  intro n
  induction n with
  | zero =>
    intro l hl h
    rw [List.length_eq_zero.mp (Nat.le_zero.mp hl)]
    intro x hx
    simp [collapseWS_nil] at hx
  | succ n ih =>
    intro l hl h
    cases l with
    | nil => intro x hx; simp [collapseWS_nil] at hx
    | cons a as =>
      by_cases hw : isWS a
      · rw [collapseWS, if_pos hw]
        cases has : as with
        | nil =>
          exfalso
          have := h a (by simp [has])
          rw [this] at hw
          exact Bool.false_ne_true hw
        | cons b bs =>
          rw [← has]
          by_cases hdn : as.dropWhile isWS = []
          · exfalso
            have hall := List.dropWhile_eq_nil_iff.mp hdn
            have hlast : as.getLast? = (a :: as).getLast? :=
              (getLast?_cons_of_ne_nil (by simp [has])).symm
            obtain ⟨x, hx⟩ : ∃ x, as.getLast? = some x := by
              cases hgl : as.getLast? with
              | none => rw [List.getLast?_eq_none_iff] at hgl; simp [hgl] at has
              | some y => exact ⟨y, rfl⟩
            have hxmem := getLast?_mem hx
            have hxws := hall x hxmem
            have := h x (by rw [← hlast]; exact hx)
            rw [this] at hxws
            exact Bool.false_ne_true hxws
          · intro x hx
            rw [getLast?_cons_of_ne_nil (collapseWS_ne_nil hdn)] at hx
            have htr : NoTrailWS (as.dropWhile isWS) := by
              intro y hy
              have hsuf := List.dropWhile_suffix (l := as) (p := isWS)
              have h1 : as.getLast? = (as.dropWhile isWS).getLast? :=
                suffix_getLast? hsuf hdn
              have h2 : (a :: as).getLast? = as.getLast? :=
                getLast?_cons_of_ne_nil (by simp [has])
              exact h y (by rw [h2, h1]; exact hy)
            have hlen : (as.dropWhile isWS).length ≤ n := by
              refine le_trans (List.dropWhile_suffix isWS).length_le ?_
              simpa using Nat.le_of_succ_le_succ hl
            exact ih _ hlen htr x hx
      · rw [collapseWS, if_neg (by simp [hw])]
        cases has : as with
        | nil =>
          intro x hx
          simp [has, collapseWS_nil] at hx
          rw [← hx]
          exact eq_false_of_ne_true hw
        | cons b bs =>
          rw [← has]
          intro x hx
          rw [getLast?_cons_of_ne_nil (collapseWS_ne_nil (by simp [has]))] at hx
          have htr : NoTrailWS as := by
            intro y hy
            exact h y (by rw [getLast?_cons_of_ne_nil (by simp [has])]; exact hy)
          have hlen : as.length ≤ n := by simpa using Nat.le_of_succ_le_succ hl
          exact ih _ hlen htr x hx

theorem collapseWS_noTrail {l : List Char} (h : NoTrailWS l) : NoTrailWS (collapseWS l) :=
  collapseWS_noTrail_aux l.length l le_rfl h

theorem collapseWS_idem_aux :
    ∀ n (l : List Char), l.length ≤ n → collapseWS (collapseWS l) = collapseWS l := by
  intro n
  induction n with
  | zero =>
    intro l hl
    rw [List.length_eq_zero.mp (Nat.le_zero.mp hl)]
    simp [collapseWS_nil]
  | succ n ih =>
    intro l hl
    cases l with
    | nil => simp [collapseWS_nil]
    | cons a as =>
      by_cases hw : isWS a
      · rw [collapseWS, if_pos hw]
        have hnl : NoLeadWS (collapseWS (as.dropWhile isWS)) :=
          collapseWS_noLead (dropWhile_noLead as)
        rw [collapseWS, if_pos (by simp [isWS])]
        rw [noLead_dropWhile_eq hnl]
        congr 1
        have hlen : (as.dropWhile isWS).length ≤ n := by
          refine le_trans (List.dropWhile_suffix isWS).length_le ?_
          simpa using Nat.le_of_succ_le_succ hl
        exact ih _ hlen
      · rw [collapseWS, if_neg (by simp [hw])]
        rw [collapseWS, if_neg (by simp [hw])]
        congr 1
        have hlen : as.length ≤ n := by simpa using Nat.le_of_succ_le_succ hl
        exact ih _ hlen

theorem collapseWS_idem (l : List Char) : collapseWS (collapseWS l) = collapseWS l :=
  collapseWS_idem_aux l.length l le_rfl

theorem pyStrip_noLead (l : List Char) : NoLeadWS (pyStrip l) := by
  intro x hx
  unfold pyStrip at hx
  set m := l.dropWhile isWS with hm
  have h0 : m.reverse.dropWhile isWS <:+ m.reverse := List.dropWhile_suffix isWS
  have hpre : (m.reverse.dropWhile isWS).reverse <+: m.reverse.reverse :=
    List.reverse_prefix.mpr h0
  rw [List.reverse_reverse] at hpre
  obtain ⟨t, ht⟩ := hpre
  cases hc : (m.reverse.dropWhile isWS).reverse with
  | nil => rw [hc] at hx; simp at hx
  | cons b bs =>
    rw [hc] at hx
    simp at hx
    rw [hc] at ht
    have hhd : m.head? = some b := by rw [← ht]; simp
    rw [← hx]
    exact dropWhile_noLead l b hhd

theorem pyStrip_noTrail (l : List Char) : NoTrailWS (pyStrip l) := by
  intro x hx
  unfold pyStrip at hx
  rw [List.getLast?_reverse] at hx
  set m := (l.dropWhile isWS).reverse with hm
  exact dropWhile_noLead m x hx

theorem noTrail_strip_eq {l : List Char} (h1 : NoLeadWS l) (h2 : NoTrailWS l) :
    pyStrip l = l := by
  unfold pyStrip
  rw [noLead_dropWhile_eq h1]
  have : NoLeadWS l.reverse := by
    intro x hx
    rw [List.head?_reverse] at hx
    exact h2 x hx
  rw [noLead_dropWhile_eq this, List.reverse_reverse]

/-- normName is idempotent: a canonical name passes through unchanged. -/
theorem normName_idem (s : String) : normName (normName s) = normName s := by
  unfold normName
  congr 1
  have h1 : NoLeadWS (collapseWS (pyStrip s.data)) :=
    collapseWS_noLead (pyStrip_noLead s.data)
  have h2 : NoTrailWS (collapseWS (pyStrip s.data)) :=
    collapseWS_noTrail (pyStrip_noTrail s.data)
  rw [show (String.mk (collapseWS (pyStrip s.data))).data = collapseWS (pyStrip s.data) from rfl]
  rw [noTrail_strip_eq h1 h2]
  exact collapseWS_idem _

/-! ### Parser and cleaning lemmas -/

/-- Whatever dateutil parses with the month-first preference it also
parses with the day-first preference (to a possibly different date). -/
theorem dateutil_true_of_false {s : String} (h : (dateutilParse false s).isSome) :
    (dateutilParse true s).isSome := by
  unfold dateutilParse at h ⊢
  cases hiso : parseIso s.data with
  | some d => simp [hiso]
  | none =>
    rw [hiso] at h
    simp only [hiso]
    cases hsl : slashParts s.data with
    | none => rw [hsl] at h; simp only [hsl]; exact h
    | some aby =>
      rw [hsl] at h
      simp only [hsl]
      obtain ⟨a, b, y⟩ := aby
      by_cases h1 : validYMD y a b = true
      · by_cases h2 : validYMD y b a = true
        · simp [h1, h2]
        · simp [h1, h2]
      · by_cases h2 : validYMD y b a = true
        · simp [h1, h2]
        · simp [h1, h2] at h

/-- A guessed format strictly parses the very string it was guessed
from. -/
theorem strptime_of_guess {s : String} {f : Fmt} (h : guessFormatDayfirst s = some f) :
    (strptimeFmt f s).isSome := by
  unfold guessFormatDayfirst at h
  cases hiso : parseIso s.data with
  | some d =>
    simp only [hiso] at h
    injection h with hf
    rw [← hf]
    simp [strptimeFmt, hiso]
  | none =>
    simp only [hiso] at h
    cases hsl : slashParts s.data with
    | none =>
      simp only [hsl] at h
      exact absurd h (by simp)
    | some aby =>
      simp only [hsl] at h
      obtain ⟨a, b, y⟩ := aby
      by_cases h1 : validYMD y b a = true
      · rw [if_pos h1] at h
        injection h with hf
        rw [← hf]
        simp [strptimeFmt, hsl, h1]
      · rw [if_neg h1] at h
        by_cases h2 : validYMD y a b = true
        · rw [if_pos h2] at h
          injection h with hf
          rw [← hf]
          simp [strptimeFmt, hsl, h2]
        · rw [if_neg h2] at h
          exact absurd h (by simp)

/-- The head of the sample is the first non-missing string of the
column (the sample is a prefix of the non-missing strings). -/
theorem firstStr_eq_sample_head (c : Col) : firstStr c.cells = (sampleOf c).head? := by
  unfold firstStr sampleOf
  cases hl : c.cells.filterMap Cell.str? with
  | nil => rfl
  | cons a l => rfl

/-- The head of a list is a member. -/
theorem head?_mem {l : List String} {s : String} (h : l.head? = some s) : s ∈ l := by
  cases l with
  | nil => simp at h
  | cons a t =>
    simp at h
    rw [← h]
    exact List.mem_cons_self a t

theorem exists_parsed_of_sampleRate {p : String → Option CDate} {sample : List String} {q : ℚ}
    (hq : 0 < q) (h : q ≤ sampleRate p sample) : ∃ s ∈ sample, (p s).isSome := by
  have hc : 0 < sample.countP (fun s => (p s).isSome) :=
    countP_pos_of_rate hq h
  rw [List.countP_pos] at hc
  exact hc

theorem str_mem_of_mem_sample {c : Col} {s : String} (h : s ∈ sampleOf c) :
    Cell.str s ∈ c.cells := by
  unfold sampleOf at h
  have h2 := List.take_subset _ _ h
  rw [List.mem_filterMap] at h2
  obtain ⟨x, hx, hxs⟩ := h2
  cases x <;> simp [Cell.str?] at hxs
  rw [← hxs]
  exact hx

theorem fullParse_countP_pos {p : String → Option CDate} {cells : List Cell} {s : String}
    (hmem : Cell.str s ∈ cells) (hp : (p s).isSome) :
    0 < (fullParse p cells).countP (fun x => !x.isNa) := by
  rw [List.countP_pos]
  refine ⟨fullParseCell p (Cell.str s), List.mem_map_of_mem _ hmem, ?_⟩
  unfold fullParseCell
  cases hps : p s with
  | none => rw [hps] at hp; simp at hp
  | some d => simp [hps, Cell.isNa]

theorem not_allMissing_of_countP {nm : String} {dt : Dtype} {cells : List Cell}
    (h : 0 < cells.countP (fun x => !x.isNa)) : (Col.mk nm dt cells).allMissing = false := by
  rw [List.countP_pos] at h
  obtain ⟨x, hx, hnx⟩ := h
  apply Bool.eq_false_iff.mpr
  intro hall
  unfold Col.allMissing at hall
  rw [List.all_eq_true] at hall
  have := hall x hx
  rw [this] at hnx
  simp at hnx

theorem parseStep_name (c : Col) : (parseStep c).name = c.name := by
  unfold parseStep
  split_ifs <;> rfl

theorem parseStep_length (c : Col) : (parseStep c).cells.length = c.cells.length := by
  unfold parseStep
  split_ifs <;> first
    | rfl
    | (unfold chosenFullParse; split_ifs <;> simp [fullParse, fullParseDayfirst])

theorem parseStep_eq_or_datetime (c : Col) :
    parseStep c = c ∨ (parseStep c).dtype = Dtype.datetime := by
  unfold parseStep
  split_ifs <;> first
    | exact Or.inl rfl
    | exact Or.inr rfl

theorem parseStep_not_allMissing {c : Col} (h : c.allMissing = false) :
    (parseStep c).allMissing = false := by
  unfold parseStep
  split_ifs with hd hemp hbest hsome
  · exact h
  · -- the column is replaced by a full parse
    apply not_allMissing_of_countP
    unfold chosenFullParse
    split_ifs with hfull
    · -- the dayfirst full parse was chosen: the format guessed from
      -- the first sampled string parses that very string, and with no
      -- guessed format the dateutil fallback parses whatever string
      -- won the sample
      have hsne : sampleOf c ≠ [] := by
        intro hcon
        rw [hcon] at hemp
        exact hemp rfl
      obtain ⟨s0, hs0⟩ : ∃ s0, (sampleOf c).head? = some s0 := by
        cases hl : sampleOf c with
        | nil => exact absurd hl hsne
        | cons a l => exact ⟨a, rfl⟩
      have hfg : fullGuess c.cells = guessFormatDayfirst s0 := by
        unfold fullGuess
        rw [firstStr_eq_sample_head, hs0]
      unfold fullParseDayfirst
      cases hgf : guessFormatDayfirst s0 with
      | some f =>
        refine fullParse_countP_pos (str_mem_of_mem_sample (head?_mem hs0)) ?_
        rw [hfg, hgf]
        exact strptime_of_guess hgf
      | none =>
        have hg : guessFromFirst (sampleOf c) = none := by
          unfold guessFromFirst
          cases hl : sampleOf c with
          | nil => rfl
          | cons a l =>
            rw [hl] at hs0
            have ha : a = s0 := by simpa using hs0
            rw [ha]
            exact hgf
        have hex : ∃ s ∈ sampleOf c, (dateutilParse true s).isSome := by
          unfold bestRate2 at hbest
          unfold bestSome2 at hsome
          by_cases h45 : bestRate1 (sampleOf c) < 4/5
          · by_cases hAB :
              sampleRateDayfirst (sampleOf c) > bestRate1 (sampleOf c)
            · rw [if_pos h45, if_pos hAB] at hbest
              have hc2 : 0 < (parseDayfirstList (sampleOf c)).countP
                  (fun r => r.isSome) := by
                apply countP_pos_of_rate (show (0:ℚ) < 1/2 by norm_num)
                unfold sampleRateDayfirst at hbest
                exact hbest
              rw [List.countP_pos] at hc2
              obtain ⟨r, hrmem, hr⟩ := hc2
              unfold parseDayfirstList at hrmem
              rw [List.mem_map] at hrmem
              obtain ⟨s, hsmem, rfl⟩ := hrmem
              rw [hg] at hr
              exact ⟨s, hsmem, hr⟩
            · rw [if_pos h45, if_neg hAB] at hbest hsome
              unfold bestSome1 at hsome
              unfold bestRate1 at hbest
              rw [if_pos (by exact_mod_cast of_decide_eq_true hsome)] at hbest
              obtain ⟨s, hs, hps⟩ := exists_parsed_of_sampleRate (by norm_num) hbest
              exact ⟨s, hs, dateutil_true_of_false hps⟩
          · rw [if_neg h45] at hbest hsome
            unfold bestSome1 at hsome
            unfold bestRate1 at hbest
            rw [if_pos (by exact_mod_cast of_decide_eq_true hsome)] at hbest
            obtain ⟨s, hs, hps⟩ := exists_parsed_of_sampleRate (by norm_num) hbest
            exact ⟨s, hs, dateutil_true_of_false hps⟩
        obtain ⟨s, hs, hps⟩ := hex
        refine fullParse_countP_pos (str_mem_of_mem_sample hs) ?_
        rw [hfg, hgf]
        exact hps
    · -- the mixed full parse was kept: its rate is at least best - 0.1 >= 0.4
      push_neg at hfull
      have hge : bestRate2 (sampleOf c) - 1/10 ≤ fullRate parseMixed c.cells := hfull
      have h04 : (0:ℚ) < bestRate2 (sampleOf c) - 1/10 := by linarith
      exact countP_pos_of_rate h04 (le_trans (le_refl _) (by unfold fullRate at hge; exact hge))
  · exact h
  · exact h
  · exact h

theorem parseStep_idem (c : Col) : parseStep (parseStep c) = parseStep c := by
  rcases parseStep_eq_or_datetime c with h | h
  · rw [h]
    exact h
  · conv_lhs => rw [parseStep]
    rw [if_neg (by rw [h]; intro hcon; exact absurd hcon (by decide))]

/-- C5 support: dropping is decided by all-missingness alone; names are
canonicalized and row counts preserved columnwise. -/
theorem clean_dataframe_forall2 (t : Table) :
    List.Forall₂
      (fun c c' => c'.name = normName c.name ∧ c'.cells.length = c.cells.length)
      (t.filter (fun c => !c.allMissing)) (clean_dataframe t) := by
  unfold clean_dataframe
  induction t with
  | nil => exact List.Forall₂.nil
  | cons c cs ih =>
    have hP : (renameCol c).allMissing = c.allMissing := rfl
    by_cases hmiss : c.allMissing
    · simpa [List.filter_cons, hP, hmiss] using ih
    · simp only [List.map_cons, List.filter_cons, hP, hmiss, Bool.not_false,
        if_pos, List.map_cons]
      refine List.Forall₂.cons ⟨?_, ?_⟩ ih
      · rw [parseStep_name]
        rfl
      · rw [parseStep_length]
        rfl

/-- C5: clean_dataframe drops a column exactly when every cell is
missing: the output columns are, in order and one for one, the input
columns having at least one non-missing cell, each with its name
canonicalized and its row count unchanged; all-missing columns never
appear. -/
theorem c5_empty_column_removal (t : Table) :
    (clean_dataframe t).length = (t.filter (fun c => !c.allMissing)).length ∧
    List.Forall₂
      (fun c c' => c'.name = normName c.name ∧ c'.cells.length = c.cells.length)
      (t.filter (fun c => !c.allMissing)) (clean_dataframe t) :=
  ⟨(clean_dataframe_forall2 t).length_eq.symm, clean_dataframe_forall2 t⟩

/-- C9: normalize is idempotent: running clean_dataframe a second time
changes no name, drops no column and alters no cell. -/
theorem c9_normalize_idempotent (t : Table) :
    clean_dataframe (clean_dataframe t) = clean_dataframe t := by
  unfold clean_dataframe
  set u := (t.map renameCol).filter (fun c => !c.allMissing) with hu
  have hname : ∀ c ∈ u, normName c.name = c.name := by
    intro c hc
    have hc2 : c ∈ t.map renameCol := List.mem_of_mem_filter hc
    rw [List.mem_map] at hc2
    obtain ⟨c0, _, rfl⟩ := hc2
    exact normName_idem c0.name
  have h1 : (u.map parseStep).map renameCol = u.map parseStep := by
    rw [List.map_map]
    refine List.map_congr_left ?_
    intro c hc
    show renameCol (parseStep c) = parseStep c
    have h2 : normName (parseStep c).name = (parseStep c).name := by
      rw [parseStep_name]
      exact hname c hc
    unfold renameCol
    rw [h2]
  have hkeep : ∀ c ∈ u.map parseStep, (!c.allMissing) = true := by
    intro c hc
    rw [List.mem_map] at hc
    obtain ⟨c0, hc0, rfl⟩ := hc
    have hm := (List.mem_filter.mp hc0).2
    have hm2 : c0.allMissing = false := by
      cases hb : c0.allMissing
      · rfl
      · rw [hb] at hm; simp at hm
    rw [parseStep_not_allMissing hm2]
    rfl
  rw [h1, List.filter_eq_self.mpr hkeep, List.map_map]
  refine List.map_congr_left ?_
  intro c hc
  simp only [Function.comp_apply]
  exact parseStep_idem c

/-! ### KPI label and list-shape lemmas -/

theorem data_append (s t : String) : (s ++ t).data = s.data ++ t.data := rfl

theorem append_head {p : String} {c : Char} (m : String) (hp : p.data.head? = some c) :
    ((p ++ m).data).head? = some c := by
  rw [data_append]
  cases hd : p.data with
  | nil => rw [hd] at hp; simp at hp
  | cons a as =>
    rw [hd] at hp
    simp at hp
    simp [hp]

theorem ne_of_head_ne {x y : String} {cx cy : Char} (hx : x.data.head? = some cx)
    (hy : y.data.head? = some cy) (hne : cx ≠ cy) : x ≠ y := by
  intro h
  rw [h] at hx
  rw [hx] at hy
  exact hne (Option.some.inj hy)

theorem append_ne_of_head {p y : String} {c cy : Char} (m : String)
    (hp : p.data.head? = some c) (hy : y.data.head? = some cy) (hne : c ≠ cy) :
    p ++ m ≠ y :=
  ne_of_head_ne (append_head m hp) hy hne

theorem total_ne_average (m m' : String) : "Total " ++ m ≠ "Average " ++ m' :=
  @ne_of_head_ne ("Total " ++ m) ("Average " ++ m') 'T' 'A'
    (append_head m (by decide)) (append_head m' (by decide)) (by decide)

theorem total_ne_rows (m : String) : "Total " ++ m ≠ "Rows" :=
  @append_ne_of_head "Total " "Rows" 'T' 'R' m (by decide) (by decide) (by decide)

theorem total_ne_columns (m : String) : "Total " ++ m ≠ "Columns" :=
  @append_ne_of_head "Total " "Columns" 'T' 'C' m (by decide) (by decide) (by decide)

theorem total_ne_daterange (m : String) : "Total " ++ m ≠ "Date range" :=
  @append_ne_of_head "Total " "Date range" 'T' 'D' m (by decide) (by decide) (by decide)

theorem total_ne_change (m : String) : "Total " ++ m ≠ "Change vs prev period" :=
  @append_ne_of_head "Total " "Change vs prev period" 'T' 'C' m
    (by decide) (by decide) (by decide)

theorem average_ne_rows (m : String) : "Average " ++ m ≠ "Rows" :=
  @append_ne_of_head "Average " "Rows" 'A' 'R' m (by decide) (by decide) (by decide)

theorem average_ne_columns (m : String) : "Average " ++ m ≠ "Columns" :=
  @append_ne_of_head "Average " "Columns" 'A' 'C' m (by decide) (by decide) (by decide)

theorem average_ne_daterange (m : String) : "Average " ++ m ≠ "Date range" :=
  @append_ne_of_head "Average " "Date range" 'A' 'D' m (by decide) (by decide) (by decide)

theorem average_ne_change (m : String) : "Average " ++ m ≠ "Change vs prev period" :=
  @append_ne_of_head "Average " "Change vs prev period" 'A' 'C' m
    (by decide) (by decide) (by decide)

theorem dateRangePart_shape {t : Table} {dc : Option String} {xs : List (String × Val)}
    (h : dateRangePart t dc = Except.ok xs) :
    xs = [] ∨ ∃ a b, xs = [("Date range", Val.dateRange a b)] := by
  unfold dateRangePart at h
  split at h
  · injection h with h2
    exact Or.inl h2.symm
  · split at h
    · injection h with h2
      exact Or.inl h2.symm
    · split at h
      · simp at h
      · split at h
        · injection h with h2
          exact Or.inl h2.symm
        · split at h
          · injection h with h2
            exact Or.inr ⟨_, _, h2.symm⟩
          · simp at h

theorem trendPart_shape {t : Table} {dc : Option String} {cm : Col}
    {xs : List (String × Val)} (h : trendPart t dc cm = Except.ok xs) :
    xs = [] ∨ ∃ v, xs = [("Change vs prev period", v)] := by
  unfold trendPart at h
  split at h
  · injection h with h2
    exact Or.inl h2.symm
  · split at h
    · injection h with h2
      exact Or.inl h2.symm
    · split at h
      · simp at h
      · split at h
        · split at h
          · simp at h
          · split at h
            · split at h
              · injection h with h2
                exact Or.inr ⟨_, h2.symm⟩
              · injection h with h2
                exact Or.inr ⟨_, h2.symm⟩
            · injection h with h2
              exact Or.inl h2.symm
        · injection h with h2
          exact Or.inl h2.symm

theorem metricPart_shape {t : Table} {dc mc : Option String} {xs : List (String × Val)}
    (h : metricPart t dc mc = Except.ok xs) :
    xs = [] ∨
      ∃ m v1 v2 rest,
        xs = ("Total " ++ m, v1) :: ("Average " ++ m, v2) :: rest ∧
          (rest = [] ∨ ∃ v, rest = [("Change vs prev period", v)]) := by
  unfold metricPart at h
  split at h
  · injection h with h2
    exact Or.inl h2.symm
  · split at h
    · injection h with h2
      exact Or.inl h2.symm
    · split at h
      · simp at h
      · split at h
        · simp at h
        · split at h
          · simp at h
          · split at h
            · simp at h
            · split at h
              · simp at h
              · split at h
                · simp at h
                · rename_i trend htrend
                  injection h with h2
                  exact Or.inr ⟨_, _, _, _, h2.symm, trendPart_shape htrend⟩

/-- C10: every list compute_kpis returns has between 2 and 6 entries,
starts with the Rows and Columns entries, repeats no label, and carries
the Change-vs-prev-period entry only in final position. -/
theorem c10_kpi_list_shape (t : Table) (dc mc : Option String) (l : List (String × Val))
    (h : compute_kpis t dc mc = Except.ok l) :
    2 ≤ l.length ∧ l.length ≤ 6 ∧
    (l.map Prod.fst).take 2 = ["Rows", "Columns"] ∧
    (l.map Prod.fst).Nodup ∧
    ∀ v, ("Change vs prev period", v) ∈ l →
      l.getLast? = some ("Change vs prev period", v) := by
  cases hp1 : dateRangePart t dc with
  | error e =>
    unfold compute_kpis at h
    rw [hp1] at h
    simp at h
  | ok part1 =>
    cases hp2 : metricPart t dc mc with
    | error e =>
      unfold compute_kpis at h
      rw [hp1, hp2] at h
      simp at h
    | ok part2 =>
      unfold compute_kpis at h
      rw [hp1, hp2] at h
      injection h with hl
      subst hl
      rcases dateRangePart_shape hp1 with h1 | ⟨a, b, h1⟩ <;> subst h1 <;>
        (rcases metricPart_shape hp2 with h2 | ⟨m, v1, v2, rest, h2, hrest⟩ <;>
          [skip; (subst h2; rcases hrest with h3 | ⟨v0, h3⟩ <;> subst h3)])
      case inl =>
        subst h2
        refine ⟨by simp, by simp, by simp, by simp, ?_⟩
        intro v hv
        simp [Prod.ext_iff] at hv
      case ok.ok.inl.inr.intro.intro.intro.intro.intro.inl =>
        refine ⟨by simp, by simp, by simp, ?_, ?_⟩
        · simp [List.nodup_cons, (total_ne_rows m).symm, (total_ne_columns m).symm,
            (average_ne_rows m).symm, (average_ne_columns m).symm, total_ne_average m m]
        · intro v hv
          simp [Prod.ext_iff, (total_ne_change m).symm, (average_ne_change m).symm] at hv
      case ok.ok.inl.inr.intro.intro.intro.intro.intro.inr.intro =>
        refine ⟨by simp, by simp, by simp, ?_, ?_⟩
        · simp [List.nodup_cons, (total_ne_rows m).symm, (total_ne_columns m).symm,
            (average_ne_rows m).symm, (average_ne_columns m).symm, total_ne_average m m,
            total_ne_change m, average_ne_change m]
        · intro v hv
          simp [Prod.ext_iff, (total_ne_change m).symm, (average_ne_change m).symm] at hv
          subst hv
          simp
      case ok.ok.inr.intro.intro.inl =>
        subst h2
        refine ⟨by simp, by simp, by simp, by simp, ?_⟩
        intro v hv
        simp [Prod.ext_iff] at hv
      case ok.ok.inr.intro.intro.inr.intro.intro.intro.intro.intro.inl =>
        refine ⟨by simp, by simp, by simp, ?_, ?_⟩
        · simp [List.nodup_cons, (total_ne_rows m).symm, (total_ne_columns m).symm,
            (total_ne_daterange m).symm, (average_ne_rows m).symm,
            (average_ne_columns m).symm, (average_ne_daterange m).symm,
            total_ne_average m m]
        · intro v hv
          simp [Prod.ext_iff, (total_ne_change m).symm, (average_ne_change m).symm] at hv
      case ok.ok.inr.intro.intro.inr.intro.intro.intro.intro.intro.inr.intro =>
        refine ⟨by simp, by simp, by simp, ?_, ?_⟩
        · simp [List.nodup_cons, (total_ne_rows m).symm, (total_ne_columns m).symm,
            (total_ne_daterange m).symm, (average_ne_rows m).symm,
            (average_ne_columns m).symm, (average_ne_daterange m).symm,
            total_ne_average m m, total_ne_change m, average_ne_change m]
        · intro v hv
          simp [Prod.ext_iff, (total_ne_change m).symm, (average_ne_change m).symm] at hv
          subst hv
          simp

/-- C10 witness: the shape invariants at a concrete one-column table
with no roles selected. -/
theorem c10_witness :
    2 ≤ ([("Rows", Val.count 1), ("Columns", Val.count 1)] : List (String × Val)).length ∧
    ([("Rows", Val.count 1), ("Columns", Val.count 1)] : List (String × Val)).length ≤ 6 ∧
    (([("Rows", Val.count 1), ("Columns", Val.count 1)] : List (String × Val)).map
        Prod.fst).take 2 = ["Rows", "Columns"] ∧
    (([("Rows", Val.count 1), ("Columns", Val.count 1)] : List (String × Val)).map
        Prod.fst).Nodup ∧
    ∀ v, ("Change vs prev period", v) ∈
        ([("Rows", Val.count 1), ("Columns", Val.count 1)] : List (String × Val)) →
      ([("Rows", Val.count 1), ("Columns", Val.count 1)] : List (String × Val)).getLast? =
        some ("Change vs prev period", v) :=
  c10_kpi_list_shape [⟨"x", Dtype.obj, [Cell.str "a"]⟩] none none
    [("Rows", Val.count 1), ("Columns", Val.count 1)] rfl

/-! ### C2: all-missing metric column -/

theorem filterMap_asNum_nil {cells : List Cell} (h : ∀ x ∈ cells, x.isNa = true) :
    cells.filterMap Cell.asNum = [] := by
  induction cells with
  | nil => rfl
  | cons x xs ih =>
    have hx := h x (by simp)
    have hxna : x = Cell.na := by
      cases x <;> first
        | rfl
        | simp [Cell.isNa] at hx
    subst hxna
    simp only [List.filterMap_cons, Cell.asNum]
    exact ih (fun y hy => h y (by simp [hy]))

theorem numsOf_nil_of_allMissing {c : Col} (h : c.allMissing = true) : c.numsOf = [] := by
  unfold Col.numsOf
  unfold Col.allMissing at h
  rw [List.all_eq_true] at h
  exact filterMap_asNum_nil h

/-- C2 counterexample: on the table with one numeric column m whose two
cells are both missing, compute_kpis renders Total m as the finite
number 0 (the skipna sum over no values is 0.0, not NaN), while the
claim requires the em-dash for both entries; only Average m is the
em-dash. -/
theorem c2_counterexample :
    compute_kpis [⟨"m", Dtype.numeric, [Cell.na, Cell.na]⟩] none (some "m") =
      Except.ok
        [("Rows", Val.count 2), ("Columns", Val.count 1),
         ("Total m", Val.numFmt 0), ("Average m", Val.dash)] ∧
    ("Total m", Val.dash) ∉
      ([("Rows", Val.count 2), ("Columns", Val.count 1),
        ("Total m", Val.numFmt 0), ("Average m", Val.dash)] : List (String × Val)) := by
  constructor
  · rfl
  · decide

/-! ### C3: compute_kpis and hard failures -/

/-- C3 counterexample: with the date role naming a text column holding
one string, the min value is a Python str and the .date() attribute
access raises, so compute_kpis surfaces a hard failure instead of a
KPI list - the claim admits date columns of any cell type. -/
theorem c3_counterexample :
    compute_kpis [⟨"d", Dtype.obj, [Cell.str "hello"]⟩] (some "d") none =
      Except.error "AttributeError: object has no attribute date" := rfl

theorem typedRows_some {pairs : List (Cell × Cell)}
    (h : ∀ r ∈ pairs,
      (r.1.isNa = false → (r.1.date?).isSome) ∧ (r.2.isNa = false → (r.2.asNum).isSome)) :
    ∃ rows, typedRows (dropnaPairs pairs) = some rows := by
  induction pairs with
  | nil => exact ⟨[], rfl⟩
  | cons r rs ih =>
    obtain ⟨rows, hrows⟩ := ih (fun x hx => h x (by simp [hx]))
    unfold dropnaPairs at hrows ⊢
    rw [List.filter_cons]
    by_cases hk : (!r.1.isNa && !r.2.isNa) = true
    · rw [if_pos hk]
      simp only [Bool.and_eq_true, Bool.not_eq_true'] at hk
      obtain ⟨hd, hq⟩ := h r (by simp)
      have hd2 := hd hk.1
      have hq2 := hq hk.2
      obtain ⟨d, hdd⟩ := Option.isSome_iff_exists.mp hd2
      obtain ⟨q, hqq⟩ := Option.isSome_iff_exists.mp hq2
      refine ⟨(d, q) :: rows, ?_⟩
      obtain ⟨c1, c2⟩ := r
      unfold typedRows
      simp only at hdd hqq
      rw [hdd, hqq, hrows]
    · rw [if_neg hk]
      exact ⟨rows, hrows⟩

theorem WF_date_cell {c : Col} (hwf : c.WF) (hdt : c.dtype = Dtype.datetime)
    {x : Cell} (hx : x ∈ c.cells) (hna : x.isNa = false) : (x.date?).isSome := by
  have := hwf x hx
  rw [hdt] at this
  cases x <;> simp [cellFits] at this <;> simp_all [Cell.isNa, Cell.date?]

theorem WF_num_cell {c : Col} (hwf : c.WF) (hdt : c.dtype = Dtype.numeric)
    {x : Cell} (hx : x ∈ c.cells) (hna : x.isNa = false) : (x.asNum).isSome := by
  have := hwf x hx
  rw [hdt] at this
  cases x <;> simp [cellFits] at this <;> simp_all [Cell.isNa, Cell.asNum]

theorem dateRangePart_ok (t : Table) (dc : Option String)
    (hdc : ∀ d, dc = some d → ¬ d = "" →
      ∃ c, lookup t d = some c ∧ c.dtype = Dtype.datetime ∧ c.WF) :
    ∃ xs, dateRangePart t dc = Except.ok xs := by
  cases dc with
  | none => exact ⟨[], rfl⟩
  | some d =>
    simp only [dateRangePart]
    by_cases hd : d = ""
    · exact ⟨[], by rw [if_pos hd]⟩
    · obtain ⟨c, hlk, hdt, _⟩ := hdc d rfl hd
      rw [if_neg hd]
      simp only [hlk]
      by_cases hne : (c.cells.filter (fun x => !x.isNa)).isEmpty
      · exact ⟨[], by rw [if_pos hne]⟩
      · rw [if_neg hne]
        simp only [hdt]
        exact ⟨_, rfl⟩

theorem trendPart_ok (t : Table) (dc : Option String) (cm : Col)
    (hwfm : cm.WF) (hmt : cm.dtype = Dtype.numeric)
    (hdc : ∀ d, dc = some d → ¬ d = "" →
      ∃ c, lookup t d = some c ∧ c.dtype = Dtype.datetime ∧ c.WF) :
    ∃ xs, trendPart t dc cm = Except.ok xs := by
  cases dc with
  | none => exact ⟨[], rfl⟩
  | some d =>
    simp only [trendPart]
    by_cases hd : d = ""
    · exact ⟨[], by rw [if_pos hd]⟩
    · obtain ⟨cd, hlk, hdt, hwfd⟩ := hdc d rfl hd
      rw [if_neg hd]
      simp only [hlk]
      by_cases h10 : 10 ≤ (dropnaPairs (pairedRows cd.cells cm.cells)).length
      · rw [if_pos h10]
        have hty : ∃ rows, typedRows (dropnaPairs (pairedRows cd.cells cm.cells)) = some rows := by
          apply typedRows_some
          intro r hr
          have hmem := List.of_mem_zip hr
          exact ⟨WF_date_cell hwfd hdt hmem.1, WF_num_cell hwfm hmt hmem.2⟩
        obtain ⟨rows, hrows⟩ := hty
        simp only [hrows]
        by_cases h2 : 2 ≤ (kpiSeriesOf rows).length
        · rw [if_pos h2]
          by_cases hz :
            ((kpiSeriesOf rows).getD ((kpiSeriesOf rows).length - 2) (0, 0)).2 ≠ 0
          · rw [if_pos hz]
            exact ⟨_, rfl⟩
          · rw [if_neg hz]
            exact ⟨_, rfl⟩
        · rw [if_neg h2]
          exact ⟨[], rfl⟩
      · rw [if_neg h10]
        exact ⟨[], rfl⟩

theorem metricPart_ok (t : Table) (dc mc : Option String)
    (hdc : ∀ d, dc = some d → ¬ d = "" →
      ∃ c, lookup t d = some c ∧ c.dtype = Dtype.datetime ∧ c.WF)
    (hmc : ∀ m, mc = some m → ¬ m = "" →
      ∃ c, lookup t m = some c ∧ c.dtype = Dtype.numeric ∧ c.WF) :
    ∃ xs, metricPart t dc mc = Except.ok xs := by
  cases mc with
  | none => exact ⟨[], rfl⟩
  | some m =>
    simp only [metricPart]
    by_cases hm : m = ""
    · exact ⟨[], by rw [if_pos hm]⟩
    · obtain ⟨c, hlk, hdt, hwf⟩ := hmc m rfl hm
      rw [if_neg hm]
      simp only [hlk]
      have hsum : pySum c = Except.ok (PyScalar.num c.numsOf.sum) := by
        unfold pySum
        rw [hdt]
      obtain ⟨trend, htrend⟩ := trendPart_ok t dc c hwf hdt hdc
      simp only [hsum, pyMean, hdt]
      by_cases hne : c.numsOf.isEmpty
      · rw [if_pos hne]
        simp only [formatAggregate, htrend]
        exact ⟨_, rfl⟩
      · rw [if_neg hne]
        simp only [formatAggregate, htrend]
        exact ⟨_, rfl⟩

/-- C3 amended: compute_kpis returns a KPI list, never a hard failure,
for every table provided that the date role, when set to a nonempty
name, names a well-typed temporal column and the metric role, when set
to a nonempty name, names a well-typed numeric column. -/
theorem c3_no_raise (t : Table) (dc mc : Option String)
    (hdc : ∀ d, dc = some d → ¬ d = "" →
      ∃ c, lookup t d = some c ∧ c.dtype = Dtype.datetime ∧ c.WF)
    (hmc : ∀ m, mc = some m → ¬ m = "" →
      ∃ c, lookup t m = some c ∧ c.dtype = Dtype.numeric ∧ c.WF) :
    ∃ l, compute_kpis t dc mc = Except.ok l := by
  obtain ⟨p1, hp1⟩ := dateRangePart_ok t dc hdc
  obtain ⟨p2, hp2⟩ := metricPart_ok t dc mc hdc hmc
  unfold compute_kpis
  rw [hp1, hp2]
  exact ⟨_, rfl⟩

/-- C3 witness: the amended statement at a concrete one-row table with
a temporal date column and a numeric metric column. -/
theorem c3_witness :
    ∃ l,
      compute_kpis
        [⟨"d", Dtype.datetime, [Cell.date ⟨2024, 1, 1⟩]⟩,
         ⟨"m", Dtype.numeric, [Cell.num 1]⟩]
        (some "d") (some "m") = Except.ok l := by
  apply c3_no_raise
  · intro d hd hne
    refine ⟨⟨"d", Dtype.datetime, [Cell.date ⟨2024, 1, 1⟩]⟩, ?_, rfl, ?_⟩
    · cases hd
      rfl
    · intro x hx
      simp at hx
      rw [hx]
      simp [cellFits]
  · intro m hm hne
    refine ⟨⟨"m", Dtype.numeric, [Cell.num 1]⟩, ?_, rfl, ?_⟩
    · cases hm
      rfl
    · intro x hx
      simp at hx
      rw [hx]
      simp [cellFits]

theorem dropnaPairs_nil_right {l1 l2 : List Cell} (h : ∀ y ∈ l2, y.isNa = true) :
    dropnaPairs (pairedRows l1 l2) = [] := by
  unfold dropnaPairs pairedRows
  rw [List.filter_eq_nil_iff]
  intro r hr
  have hmem := List.of_mem_zip hr
  have h2 := h r.2 hmem.2
  simp [h2]

/-- C2 amended: for every table, any well-typed (or unset) date role
and a metric role naming an all-missing numeric column, compute_kpis
emits Total as the finite number 0 (rendered 0.00) - the skipna sum
over no values is 0.0, not NaN - and Average as the em-dash. -/
theorem c2_amended (t : Table) (dc : Option String) (m : String) (c : Col)
    (hdc : ∀ d, dc = some d → ¬ d = "" →
      ∃ cd, lookup t d = some cd ∧ cd.dtype = Dtype.datetime ∧ cd.WF)
    (hm : ¬ m = "") (hlk : lookup t m = some c) (hdt : c.dtype = Dtype.numeric)
    (hmiss : c.allMissing = true) :
    ∃ l, compute_kpis t dc (some m) = Except.ok l ∧
      ("Total " ++ m, Val.numFmt 0) ∈ l ∧ ("Average " ++ m, Val.dash) ∈ l := by
  have hnums := numsOf_nil_of_allMissing hmiss
  have hallna : ∀ y ∈ c.cells, y.isNa = true := by
    unfold Col.allMissing at hmiss
    rw [List.all_eq_true] at hmiss
    exact hmiss
  have hsum : pySum c = Except.ok (PyScalar.num 0) := by
    simp [pySum, hdt, hnums]
  have hmean : pyMean c = Except.ok PyScalar.nan := by
    simp [pyMean, hdt, hnums]
  have htrend : trendPart t dc c = Except.ok [] := by
    cases dc with
    | none => rfl
    | some d =>
      simp only [trendPart]
      by_cases hd : d = ""
      · rw [if_pos hd]
      · obtain ⟨cd, hlkd, hdtd, hwfdd⟩ := hdc d rfl hd
        rw [if_neg hd]
        simp only [hlkd]
        have hnil : dropnaPairs (pairedRows cd.cells c.cells) =
            ([] : List (Cell × Cell)) := dropnaPairs_nil_right hallna
        rw [if_neg (by rw [hnil]; decide)]
  have hmp : metricPart t dc (some m) =
      Except.ok [("Total " ++ m, Val.numFmt 0), ("Average " ++ m, Val.dash)] := by
    unfold metricPart
    simp only [hm, if_false, hlk, hsum, hmean, htrend, formatAggregate]
  obtain ⟨dr, hdr⟩ := dateRangePart_ok t dc hdc
  refine
    ⟨[("Rows", Val.count t.nrows), ("Columns", Val.count t.ncols)] ++ dr ++
        [("Total " ++ m, Val.numFmt 0), ("Average " ++ m, Val.dash)],
      ?_, by simp, by simp⟩
  unfold compute_kpis
  simp only [hdr, hmp]

/-- C2 witness: the amended statement at the concrete all-missing
numeric column. -/
theorem c2_witness :
    ∃ l,
      compute_kpis [⟨"m", Dtype.numeric, [Cell.na, Cell.na]⟩] none (some "m") =
        Except.ok l ∧
      ("Total " ++ "m", Val.numFmt 0) ∈ l ∧ ("Average " ++ "m", Val.dash) ∈ l :=
  c2_amended [⟨"m", Dtype.numeric, [Cell.na, Cell.na]⟩] none "m"
    ⟨"m", Dtype.numeric, [Cell.na, Cell.na]⟩ (by intro d hd; cases hd) (by decide)
    rfl rfl rfl

/-! ### C1: the full-column parse versus the sample winner -/

theorem normName_d : normName "d" = "d" := by
  unfold normName
  have hps : pyStrip "d".data = ['d'] := by
    show pyStrip ['d'] = ['d']
    unfold pyStrip
    rw [List.dropWhile_cons_of_neg (by decide)]
    simp only [List.reverse_cons, List.reverse_nil, List.nil_append]
    rw [List.dropWhile_cons_of_neg (by decide)]
    rfl
  rw [hps]
  rw [collapseWS]
  rw [if_neg (by decide)]
  rw [collapseWS_nil]

/-- C1 counterexample: on c1Col the mixed strategy parses the whole
sample (rate 1.0, so the dayfirst strategy is never even attempted and
mixed wins the race with rate at least 0.5), yet clean_dataframe does
not re-run the winner over the entire column: the three missing rows
drag the winner's full-column rate down to 0.5, more than 0.1 below
1.0, so the column is replaced with the dayfirst full parse - whose
strict format, guessed from the first element, turns the ambiguous
slash cell the winner parses as 2024-05-01 into a missing value. -/
theorem c1_counterexample :
    sampleRate parseMixed (sampleOf c1Col) = 1 ∧
    clean_dataframe [c1Col] = [⟨"d", Dtype.datetime, fullParseDayfirst c1Col.cells⟩] ∧
    fullParseDayfirst c1Col.cells ≠ fullParse parseMixed c1Col.cells ∧
    (fullParse parseMixed c1Col.cells).getD 2 Cell.na = Cell.date ⟨2024, 5, 1⟩ ∧
    (fullParseDayfirst c1Col.cells).getD 2 Cell.na = Cell.na := by
  have hA : sampleRate parseMixed (sampleOf c1Col) = 1 := by
    unfold sampleRate
    rw [show (sampleOf c1Col).countP (fun s => (parseMixed s).isSome) = 3 from by decide,
      show (sampleOf c1Col).length = 3 from by decide]
    norm_num
  have hbr1 : bestRate1 (sampleOf c1Col) = 1 := by
    unfold bestRate1
    rw [hA]
    norm_num
  have hbr2 : bestRate2 (sampleOf c1Col) = 1 := by
    unfold bestRate2
    rw [hbr1]
    norm_num
  have hbs2 : bestSome2 (sampleOf c1Col) = true := by
    unfold bestSome2 bestSome1
    rw [hbr1, hA]
    norm_num
  have hfr : fullRate parseMixed c1Col.cells = 1/2 := by
    unfold fullRate
    rw [show (fullParse parseMixed c1Col.cells).countP (fun x => !x.isNa) = 3 from by decide,
      show c1Col.cells.length = 6 from by decide]
    norm_num
  have hcf : chosenFullParse c1Col.cells 1 = fullParseDayfirst c1Col.cells := by
    unfold chosenFullParse
    rw [hfr]
    rw [if_pos (by norm_num)]
  have hstep : parseStep c1Col = ⟨"d", Dtype.datetime, fullParseDayfirst c1Col.cells⟩ := by
    unfold parseStep
    rw [if_pos (show c1Col.dtype = Dtype.obj from rfl),
      if_neg (show ¬(sampleOf c1Col).isEmpty = true from by decide), hbr2,
      if_pos (show (1:ℚ) ≥ 1/2 from by norm_num), hbs2, if_pos rfl, hcf]
    rfl
  have hclean : clean_dataframe [c1Col] =
      [⟨"d", Dtype.datetime, fullParseDayfirst c1Col.cells⟩] := by
    unfold clean_dataframe
    have hrn : renameCol c1Col = c1Col := by
      show (⟨normName "d", c1Col.dtype, c1Col.cells⟩ : Col) = c1Col
      rw [normName_d]
      rfl
    rw [List.map_cons, List.map_nil, hrn, List.filter_cons,
      if_pos (by decide), List.filter_nil, List.map_cons, List.map_nil, hstep]
  exact ⟨hA, hclean, by decide, by decide, by decide⟩

/-- C1 amended: when the winning sample rate reaches 0.5 the column is
replaced by a full-column parse, but not necessarily by the sample
winner's: the full column is re-parsed with the flexible mixed
strategy, and that parse is kept unless its success rate over all rows
(missing rows included, unlike the sample rate) falls more than 0.1
below the winning sample rate, in which case the dayfirst full parse
is used instead - even when the mixed strategy itself won the
sample. -/
theorem c1_amended (c : Col) (hobj : c.dtype = Dtype.obj)
    (hne : ¬(sampleOf c).isEmpty = true)
    (hbest : bestRate2 (sampleOf c) ≥ 1/2)
    (hsome : bestSome2 (sampleOf c) = true) :
    (parseStep c).dtype = Dtype.datetime ∧
    (parseStep c).cells =
      (if fullRate parseMixed c.cells < bestRate2 (sampleOf c) - 1/10 then
        fullParseDayfirst c.cells
      else fullParse parseMixed c.cells) := by
  unfold parseStep
  rw [if_pos hobj, if_neg hne, if_pos hbest, hsome, if_pos rfl]
  exact ⟨rfl, rfl⟩

/-- C1 amended witness: a two-ISO-date column; no rows are missing, so
the mixed full parse is kept. -/
theorem c1_witness :
    (parseStep c1wCol).dtype = Dtype.datetime ∧
    (parseStep c1wCol).cells =
      (if fullRate parseMixed c1wCol.cells < bestRate2 (sampleOf c1wCol) - 1/10 then
        fullParseDayfirst c1wCol.cells
      else fullParse parseMixed c1wCol.cells) := by
  have hA : sampleRate parseMixed (sampleOf c1wCol) = 1 := by
    unfold sampleRate
    rw [show (sampleOf c1wCol).countP (fun s => (parseMixed s).isSome) = 2 from by decide,
      show (sampleOf c1wCol).length = 2 from by decide]
    norm_num
  have hbr1 : bestRate1 (sampleOf c1wCol) = 1 := by
    unfold bestRate1
    rw [hA]
    norm_num
  refine c1_amended c1wCol rfl (by decide) ?_ ?_
  · unfold bestRate2
    rw [hbr1]
    norm_num
  · unfold bestSome2 bestSome1
    rw [hbr1, hA]
    norm_num

/-! ### C4: infer_metric_column and the NaN variance quirk -/

theorem pyOrZero_val (q : ℚ) : pyOrZero (PFloat.val q) = PFloat.val q := by
  show (if q = 0 then PFloat.val 0 else PFloat.val q) = PFloat.val q
  by_cases h : q = 0
  · rw [if_pos h, h]
  · rw [if_neg h]

theorem insDesc_head_cons (key : Col → Int × PFloat) (x y : Col) (ys : List Col) :
    (insDesc key x (y :: ys)).head? = some (if pyKeyLt (key y) (key x) then x else y) := by
  unfold insDesc
  cases h : pyKeyLt (key y) (key x) <;> simp [h]

theorem pySortDesc_head (key : Col → Int × PFloat) (l : List Col) :
    (pySortDesc key l).head? = pyPick key l := by
  unfold pySortDesc pyPick
  suffices h : ∀ acc : List Col,
      (List.foldl (fun acc x => insDesc key x acc) acc l).head? =
        List.foldl
          (fun acc x =>
            match acc with
            | none => some x
            | some a => if pyKeyLt (key a) (key x) then some x else some a)
          acc.head? l by
    exact h []
  induction l with
  | nil => intro acc; rfl
  | cons x xs ih =>
    intro acc
    simp only [List.foldl_cons]
    rw [ih (insDesc key x acc)]
    congr 1
    cases acc with
    | nil => rfl
    | cons y ys =>
      rw [insDesc_head_cons]
      simp only [List.head?_cons]
      exact apply_ite some _ x y

theorem pyKeyLt_eq_spec {c c' : Col} (h : 2 ≤ c.numsOf.length) (h' : 2 ≤ c'.numsOf.length) :
    pyKeyLt (metricScore c) (metricScore c') =
      specKeyLtB (specMetricKey c) (specMetricKey c') := by
  unfold metricScore specMetricKey Col.pyVar
  rw [if_pos h, if_pos h', pyOrZero_val, pyOrZero_val, if_pos h, if_pos h']
  rfl

theorem pyPick_eq_specPick {l : List Col} (h : ∀ c ∈ l, 2 ≤ c.numsOf.length) :
    pyPick metricScore l = specPick l := by
  unfold pyPick specPick
  have hgen : ∀ (ll : List Col), (∀ c ∈ ll, 2 ≤ c.numsOf.length) →
      ∀ acc : Option Col, (∀ c, acc = some c → 2 ≤ c.numsOf.length) →
      List.foldl
        (fun acc x =>
          match acc with
          | none => some x
          | some a => if pyKeyLt (metricScore a) (metricScore x) then some x else some a)
        acc ll =
      List.foldl
        (fun acc x =>
          match acc with
          | none => some x
          | some a => if specKeyLtB (specMetricKey a) (specMetricKey x) then some x else some a)
        acc ll := by
    intro ll
    induction ll with
    | nil => intro _ acc _; rfl
    | cons x xs ih =>
      intro hll acc hacc
      simp only [List.foldl_cons]
      have hx : 2 ≤ x.numsOf.length := hll x (by simp)
      have hxs : ∀ c ∈ xs, 2 ≤ c.numsOf.length := fun c hc => hll c (by simp [hc])
      cases acc with
      | none =>
        show List.foldl _ (some x) xs = List.foldl _ (some x) xs
        exact ih hxs (some x)
          (by intro c hc; rw [← Option.some.inj hc]; exact hx)
      | some a =>
        have hkey := pyKeyLt_eq_spec (hacc a rfl) hx
        show List.foldl _
            (if pyKeyLt (metricScore a) (metricScore x) = true then some x else some a) xs =
          List.foldl _
            (if specKeyLtB (specMetricKey a) (specMetricKey x) = true then some x else some a) xs
        rw [hkey]
        by_cases hco : specKeyLtB (specMetricKey a) (specMetricKey x) = true
        · rw [if_pos hco]
          exact ih hxs (some x)
            (by intro c hc; rw [← Option.some.inj hc]; exact hx)
        · rw [if_neg hco]
          exact ih hxs (some a)
            (by intro c hc; rw [← Option.some.inj hc]; exact hacc a rfl)
  exact hgen l h none (by intro c hc; cases hc)

theorem specKeyLtB_irrefl (k : Int × ℚ) : specKeyLtB k k = false := by
  simp [specKeyLtB]

theorem specKeyLtB_trans {a b c : Int × ℚ} (h1 : specKeyLtB a b = true)
    (h2 : specKeyLtB b c = true) : specKeyLtB a c = true := by
  simp only [specKeyLtB, Bool.or_eq_true, Bool.and_eq_true, decide_eq_true_eq] at h1 h2 ⊢
  rcases h1 with h1 | ⟨h1e, h1q⟩ <;> rcases h2 with h2 | ⟨h2e, h2q⟩
  · exact Or.inl (lt_trans h1 h2)
  · exact Or.inl (h2e ▸ h1)
  · exact Or.inl (h1e ▸ h2)
  · exact Or.inr ⟨h1e.trans h2e, lt_trans h1q h2q⟩

theorem specKeyLtB_le_lt_trans {a b c : Int × ℚ} (h1 : specKeyLtB b a = false)
    (h2 : specKeyLtB b c = true) : specKeyLtB a c = true := by
  have h1' : ¬ (b.1 < a.1 ∨ (b.1 = a.1 ∧ b.2 < a.2)) := by
    intro hcon
    have : specKeyLtB b a = true := by
      simp only [specKeyLtB, Bool.or_eq_true, Bool.and_eq_true, decide_eq_true_eq]
      exact hcon
    rw [h1] at this
    exact Bool.false_ne_true this
  push_neg at h1'
  simp only [specKeyLtB, Bool.or_eq_true, Bool.and_eq_true, decide_eq_true_eq] at h2 ⊢
  rcases h2 with h2 | ⟨h2e, h2q⟩
  · rcases lt_trichotomy a.1 b.1 with ha | ha | ha
    · exact Or.inl (lt_trans ha h2)
    · exact Or.inl (ha ▸ h2)
    · exact absurd ha (not_lt.mpr h1'.1)
  · rcases lt_trichotomy a.1 b.1 with ha | ha | ha
    · exact Or.inl (h2e ▸ ha)
    · refine Or.inr ⟨ha.trans h2e, ?_⟩
      exact lt_of_le_of_lt (h1'.2 ha.symm) h2q
    · exact absurd ha (not_lt.mpr h1'.1)

theorem specKeyLtB_asymm_of_lt {a b c : Int × ℚ} (hca : specKeyLtB c a = false)
    (hcb : specKeyLtB c b = true) : specKeyLtB b a = false := by
  cases hba : specKeyLtB b a with
  | false => rfl
  | true =>
    have := specKeyLtB_le_lt_trans hca hcb
    have h2 := specKeyLtB_trans this hba
    rw [specKeyLtB_irrefl] at h2
    exact absurd h2 Bool.false_ne_true

/-- specPick really is the spec's selection rule: it returns the first
candidate attaining the lexicographically greatest score - every
earlier candidate scores strictly lower, no candidate scores higher. -/
theorem specPick_first_max (l : List Col) (hne : ¬ l = []) :
    ∃ l1 c l2, l = l1 ++ c :: l2 ∧ specPick l = some c ∧
      (∀ x ∈ l1, specKeyLtB (specMetricKey x) (specMetricKey c) = true) ∧
      (∀ x ∈ l, specKeyLtB (specMetricKey c) (specMetricKey x) = false) := by
  induction l using List.reverseRecOn with
  | nil => exact absurd rfl hne
  | append_singleton xs x ih =>
    have hfold : specPick (xs ++ [x]) =
        (match specPick xs with
          | none => some x
          | some a =>
            if specKeyLtB (specMetricKey a) (specMetricKey x) then some x else some a) := by
      unfold specPick
      rw [List.foldl_append]
      rfl
    by_cases hxs : xs = []
    · subst hxs
      refine ⟨[], x, [], by simp, rfl, by simp, ?_⟩
      intro y hy
      simp at hy
      rw [hy, specKeyLtB_irrefl]
    · obtain ⟨l1, c, l2, hdec, hpick, hearlier, hmax⟩ := ih hxs
      rw [hpick] at hfold
      by_cases hcx : specKeyLtB (specMetricKey c) (specMetricKey x) = true
      · refine ⟨xs, x, [], rfl, ?_, ?_, ?_⟩
        · rw [hfold]
          show (if specKeyLtB (specMetricKey c) (specMetricKey x) = true then some x
            else some c) = some x
          rw [if_pos hcx]
        · intro y hy
          rw [hdec] at hy
          rcases List.mem_append.mp hy with hy1 | hy2
          · exact specKeyLtB_trans (hearlier y hy1) hcx
          · rcases List.mem_cons.mp hy2 with hy3 | hy4
            · rw [hy3]
              exact hcx
            · exact specKeyLtB_le_lt_trans (hmax y (by rw [hdec]; simp [hy4])) hcx
        · intro y hy
          rcases List.mem_append.mp hy with hy1 | hy2
          · exact specKeyLtB_asymm_of_lt (hmax y hy1) hcx
          · simp at hy2
            rw [hy2, specKeyLtB_irrefl]
      · refine ⟨l1, c, l2 ++ [x], by rw [hdec]; simp, ?_, hearlier, ?_⟩
        · rw [hfold]
          show (if specKeyLtB (specMetricKey c) (specMetricKey x) = true then some x
            else some c) = some c
          rw [if_neg hcx]
        · intro y hy
          rcases List.mem_append.mp hy with hy1 | hy2
          · exact hmax y hy1
          · simp at hy2
            rw [hy2]
            cases hb : specKeyLtB (specMetricKey c) (specMetricKey x) with
            | false => rfl
            | true => exact absurd hb hcx

/-- C4 amended: when every numeric (or boolean: pandas counts booleans
as numeric) candidate has at least two non-missing values - so that no
sample variance degenerates to NaN - infer_metric_column returns
exactly the candidate with the lexicographically greatest (penalized
count, sample variance) pair, ties broken stably by original order. -/
theorem c4_amended (t : Table)
    (hne : ¬ t.filter (fun c => isNumericDtype c.dtype) = [])
    (h2 : ∀ c ∈ t.filter (fun c => isNumericDtype c.dtype), 2 ≤ c.numsOf.length) :
    infer_metric_column t = Option.map Col.name (specMetricSelect t) := by
  unfold infer_metric_column specMetricSelect
  have hh := pySortDesc_head metricScore (t.filter (fun c => isNumericDtype c.dtype))
  rw [pyPick_eq_specPick h2] at hh
  cases hs : pySortDesc metricScore (t.filter (fun c => isNumericDtype c.dtype)) with
  | nil =>
    rw [hs] at hh
    simp only [List.head?_nil] at hh
    rw [← hh]
    rfl
  | cons c cs =>
    rw [hs] at hh
    simp only [List.head?_cons] at hh
    rw [← hh]
    rfl

/-- C4 witness: the amended statement at a concrete table whose two
numeric columns both carry at least two values. -/
theorem c4_witness :
    infer_metric_column c4wTable = Option.map Col.name (specMetricSelect c4wTable) :=
  c4_amended c4wTable (by decide) (by decide)

theorem c4_var_xid : sampleVar [0, 10, 20] = 100 := by
  unfold sampleVar
  norm_num [List.sum_cons, List.sum_nil, List.map_cons, List.map_nil]

theorem c4_scoreA : metricScore c4ColA = (1, PFloat.nan) := by decide

theorem c4_scoreB : metricScore c4ColB = (1, PFloat.val 100) := by
  unfold metricScore
  rw [show namePenalty c4ColB.name = -2 from by decide]
  rw [show Col.nonNaCount c4ColB = 3 from by decide]
  have hnums : Col.numsOf c4ColB = [0, 10, 20] := by decide
  unfold Col.pyVar
  rw [hnums, if_pos (by decide), c4_var_xid, pyOrZero_val]
  rfl

theorem c4_specA : specMetricKey c4ColA = (1, 0) := by decide

theorem c4_specB : specMetricKey c4ColB = (1, 100) := by
  unfold specMetricKey
  rw [show namePenalty c4ColB.name = -2 from by decide]
  rw [show Col.nonNaCount c4ColB = 3 from by decide]
  have hnums : Col.numsOf c4ColB = [0, 10, 20] := by decide
  rw [hnums, if_pos (by decide), c4_var_xid]
  rfl

/-- C4 counterexample: on c4Table the claim's score (NaN variance read
as 0) selects the id-penalized high-variance column xid, but the code
compares the NaN variance of the singleton column as neither smaller
nor larger, the sort keeps original order, and infer_metric_column
returns the singleton column a instead. -/
theorem c4_counterexample :
    infer_metric_column c4Table = some "a" ∧
    Option.map Col.name (specMetricSelect c4Table) = some "xid" ∧
    infer_metric_column c4Table ≠ Option.map Col.name (specMetricSelect c4Table) := by
  have hlt : pyKeyLt (metricScore c4ColA) (metricScore c4ColB) = false := by
    rw [c4_scoreA, c4_scoreB]
    decide
  have hslt : specKeyLtB (specMetricKey c4ColA) (specMetricKey c4ColB) = true := by
    rw [c4_specA, c4_specB]
    unfold specKeyLtB
    have h100 : ((0:ℚ) < 100) := by norm_num
    simp [h100]
  have hfil : c4Table.filter (fun c => isNumericDtype c.dtype) = [c4ColA, c4ColB] := by
    decide
  have hinfer : infer_metric_column c4Table = some "a" := by
    unfold infer_metric_column
    rw [hfil]
    unfold pySortDesc
    simp only [List.foldl_cons, List.foldl_nil]
    rw [show insDesc metricScore c4ColA [] = [c4ColA] from rfl]
    unfold insDesc
    rw [hlt]
    rfl
  have hspec : specMetricSelect c4Table = some c4ColB := by
    unfold specMetricSelect specPick
    rw [hfil]
    simp only [List.foldl_cons, List.foldl_nil]
    show (if specKeyLtB (specMetricKey c4ColA) (specMetricKey c4ColB) then some c4ColB
      else some c4ColA) = some c4ColB
    rw [hslt]
    rfl
  refine ⟨hinfer, ?_, ?_⟩
  · rw [hspec]
    rfl
  · rw [hinfer, hspec]
    decide

/-! ### C6, C7, C8: the trend pipeline -/

/-- C6: whenever both sides compute a bucketed series for the same
inputs (typed joint rows exist; at least 10 remain, so compute_kpis
builds its series too), the series behind build_trend_chart is the same
series the Change-vs-prev-period KPI compares: same span rule, same
bucket width, same period starts, same sums. -/
theorem c6_chart_kpi_same_series (t : Table) (d m : String) (cd cm : Col)
    (hld : lookup t d = some cd) (hlm : lookup t m = some cm)
    (rows : List (CDate × ℚ))
    (hty : typedRows (dropnaPairs (pairedRows cd.cells cm.cells)) = some rows)
    (h10 : 10 ≤ (dropnaPairs (pairedRows cd.cells cm.cells)).length) :
    build_trend_series t d m = some (kpiSeriesOf rows) := by
  unfold build_trend_series
  simp only [hld, hlm, hty]
  rfl

/-- C6 witness: the chart series and the KPI series agree on the
concrete ten-day table. -/
theorem c6_witness : build_trend_series c6Table "d" "m" = some (kpiSeriesOf c6Rows) :=
  c6_chart_kpi_same_series c6Table "d" "m" _ _ rfl rfl c6Rows (by decide) (by decide)

theorem trendPart_eq {t : Table} {d : String} {cd : Col} (cm : Col)
    {rows : List (CDate × ℚ)}
    (hd : ¬ d = "") (hld : lookup t d = some cd)
    (hty : typedRows (dropnaPairs (pairedRows cd.cells cm.cells)) = some rows)
    (h10 : 10 ≤ (dropnaPairs (pairedRows cd.cells cm.cells)).length)
    (h2 : 2 ≤ (kpiSeriesOf rows).length) :
    trendPart t (some d) cm = Except.ok
      [("Change vs prev period",
        if ((kpiSeriesOf rows).getD ((kpiSeriesOf rows).length - 2) (0, 0)).2 = 0 then
          Val.dash
        else
          Val.pctFmt
            ((((kpiSeriesOf rows).getLastD (0, 0)).2 -
                ((kpiSeriesOf rows).getD ((kpiSeriesOf rows).length - 2) (0, 0)).2) /
              |((kpiSeriesOf rows).getD ((kpiSeriesOf rows).length - 2) (0, 0)).2| *
              100))] := by
  simp only [trendPart]
  rw [if_neg hd]
  simp only [hld]
  rw [if_pos h10]
  simp only [hty]
  rw [if_pos h2]
  by_cases hz : ((kpiSeriesOf rows).getD ((kpiSeriesOf rows).length - 2) (0, 0)).2 = 0
  · rw [if_neg (not_not_intro hz), if_pos hz]
  · rw [if_pos hz, if_neg hz]

theorem metricPart_eq {t : Table} {dc : Option String} {m : String} {cm : Col}
    {trend : List (String × Val)}
    (hm : ¬ m = "") (hlm : lookup t m = some cm) (hmt : cm.dtype = Dtype.numeric)
    (htr : trendPart t dc cm = Except.ok trend) :
    metricPart t dc (some m) = Except.ok
      (("Total " ++ m, Val.numFmt cm.numsOf.sum) ::
        ("Average " ++ m,
          if cm.numsOf.isEmpty then Val.dash
          else Val.numFmt (cm.numsOf.sum / (cm.numsOf.length : ℚ))) :: trend) := by
  simp only [metricPart]
  rw [if_neg hm]
  simp only [hlm]
  have hsum : pySum cm = Except.ok (PyScalar.num cm.numsOf.sum) := by
    simp only [pySum, hmt]
  simp only [hsum]
  by_cases he : cm.numsOf.isEmpty
  · have hmean : pyMean cm = Except.ok PyScalar.nan := by
      simp only [pyMean, hmt]
      rw [if_pos he]
    simp only [hmean, formatAggregate, htr]
    rw [if_pos he]
  · have hmean : pyMean cm =
        Except.ok (PyScalar.num (cm.numsOf.sum / (cm.numsOf.length : ℚ))) := by
      simp only [pyMean, hmt]
      rw [if_neg he]
    simp only [hmean, formatAggregate, htr]
    rw [if_neg he]

/-- C7: with both roles set, at least 10 jointly non-missing rows and
at least 2 buckets, compute_kpis emits the Change-vs-prev-period entry:
the signed percent (last - prev) / abs prev * 100 when the previous
bucket sum is nonzero, the em-dash when it is zero. -/
theorem c7_trend_entry (t : Table) (d m : String) (cd cm : Col)
    (hd : ¬ d = "") (hm : ¬ m = "")
    (hld : lookup t d = some cd) (hlm : lookup t m = some cm)
    (hdt : cd.dtype = Dtype.datetime) (hwfd : cd.WF)
    (hmt : cm.dtype = Dtype.numeric)
    (rows : List (CDate × ℚ))
    (hty : typedRows (dropnaPairs (pairedRows cd.cells cm.cells)) = some rows)
    (h10 : 10 ≤ (dropnaPairs (pairedRows cd.cells cm.cells)).length)
    (h2 : 2 ≤ (kpiSeriesOf rows).length)
    (last prev : Int × ℚ)
    (hlast : (kpiSeriesOf rows).getLast? = some last)
    (hprev : (kpiSeriesOf rows)[(kpiSeriesOf rows).length - 2]? = some prev) :
    ∃ l, compute_kpis t (some d) (some m) = Except.ok l ∧
      (¬ prev.2 = 0 →
        ("Change vs prev period", Val.pctFmt ((last.2 - prev.2) / |prev.2| * 100)) ∈ l) ∧
      (prev.2 = 0 → ("Change vs prev period", Val.dash) ∈ l) := by
  have hgdp : (kpiSeriesOf rows).getD ((kpiSeriesOf rows).length - 2) (0, 0) = prev := by
    rw [List.getD_eq_getElem?_getD, hprev]
    rfl
  have hgdl : (kpiSeriesOf rows).getLastD (0, 0) = last := by
    rw [List.getLastD_eq_getLast?, hlast]
    rfl
  obtain ⟨dr, hdr⟩ := dateRangePart_ok t (some d) (by
    intro d' hd' hne
    cases hd'
    exact ⟨cd, hld, hdt, hwfd⟩)
  have htr := trendPart_eq cm hd hld hty h10 h2
  rw [hgdp, hgdl] at htr
  have hmp := metricPart_eq hm hlm hmt htr
  refine
    ⟨[("Rows", Val.count t.nrows), ("Columns", Val.count t.ncols)] ++ dr ++
        (("Total " ++ m, Val.numFmt cm.numsOf.sum) ::
          ("Average " ++ m,
            if cm.numsOf.isEmpty then Val.dash
            else Val.numFmt (cm.numsOf.sum / (cm.numsOf.length : ℚ))) ::
          [("Change vs prev period",
            if prev.2 = 0 then Val.dash
            else Val.pctFmt ((last.2 - prev.2) / |prev.2| * 100))]),
      ?_, ?_, ?_⟩
  · unfold compute_kpis
    simp only [hdr, hmp]
  · intro hz
    rw [if_neg hz]
    simp
  · intro hz
    rw [if_pos hz]
    simp

/-- C8: with both roles set but fewer than 10 jointly non-missing rows,
or a bucketed series with fewer than 2 buckets, compute_kpis emits no
Change-vs-prev-period entry at all. -/
theorem c8_trend_guard (t : Table) (d m : String) (cd cm : Col)
    (hd : ¬ d = "") (hm : ¬ m = "")
    (hld : lookup t d = some cd) (hlm : lookup t m = some cm)
    (hdt : cd.dtype = Dtype.datetime) (hwfd : cd.WF)
    (hmt : cm.dtype = Dtype.numeric)
    (hguard : (dropnaPairs (pairedRows cd.cells cm.cells)).length < 10 ∨
      ∃ rows, typedRows (dropnaPairs (pairedRows cd.cells cm.cells)) = some rows ∧
        (kpiSeriesOf rows).length < 2) :
    ∃ l, compute_kpis t (some d) (some m) = Except.ok l ∧
      ∀ v, ("Change vs prev period", v) ∉ l := by
  have htr : trendPart t (some d) cm = Except.ok [] := by
    simp only [trendPart]
    rw [if_neg hd]
    simp only [hld]
    by_cases h10 : 10 ≤ (dropnaPairs (pairedRows cd.cells cm.cells)).length
    · rcases hguard with hlt | ⟨rows, hty, h2⟩
      · exact absurd h10 (by omega)
      · rw [if_pos h10]
        simp only [hty]
        rw [if_neg (by omega)]
    · rw [if_neg h10]
  have hmp := metricPart_eq hm hlm hmt htr
  obtain ⟨dr, hdr⟩ := dateRangePart_ok t (some d) (by
    intro d' hd' hne
    cases hd'
    exact ⟨cd, hld, hdt, hwfd⟩)
  rcases dateRangePart_shape hdr with hsh | ⟨a, b, hsh⟩ <;> subst hsh
  · refine
      ⟨[("Rows", Val.count t.nrows), ("Columns", Val.count t.ncols)] ++ [] ++
          (("Total " ++ m, Val.numFmt cm.numsOf.sum) ::
            ("Average " ++ m,
              if cm.numsOf.isEmpty then Val.dash
              else Val.numFmt (cm.numsOf.sum / (cm.numsOf.length : ℚ))) :: []),
        ?_, ?_⟩
    · unfold compute_kpis
      simp only [hdr, hmp]
    · intro v hv
      simp [Prod.ext_iff, (total_ne_change m).symm, (average_ne_change m).symm] at hv
  · refine
      ⟨[("Rows", Val.count t.nrows), ("Columns", Val.count t.ncols)] ++
          [("Date range", Val.dateRange a b)] ++
          (("Total " ++ m, Val.numFmt cm.numsOf.sum) ::
            ("Average " ++ m,
              if cm.numsOf.isEmpty then Val.dash
              else Val.numFmt (cm.numsOf.sum / (cm.numsOf.length : ℚ))) :: []),
        ?_, ?_⟩
    · unfold compute_kpis
      simp only [hdr, hmp]
    · intro v hv
      simp [Prod.ext_iff, (total_ne_change m).symm, (average_ne_change m).symm] at hv

set_option maxRecDepth 4000 in
theorem c7_series_eval : kpiSeriesOf c6Rows = [(19723, 1), (19730, 7), (19737, 2)] := by
  have hsort : sortByDate c6Rows = c6Rows := by decide
  have hgrid : gridKeys Freq.wmon (minDateOf c6Rows) (maxDateOf c6Rows) =
      [19723, 19730, 19737] := by decide
  have hb1 : bucketSum Freq.wmon c6Rows 19723 = 1 := by
    unfold bucketSum
    rw [show c6Rows.filter (fun r => bucketKey Freq.wmon r.1 = 19723) =
      [(⟨2024, 1, 1⟩, (1:ℚ))] from by decide]
    simp
  have hb2 : bucketSum Freq.wmon c6Rows 19730 = 7 := by
    unfold bucketSum
    rw [show c6Rows.filter (fun r => bucketKey Freq.wmon r.1 = 19730) =
      [(⟨2024, 1, 2⟩, (1:ℚ)), (⟨2024, 1, 3⟩, 1), (⟨2024, 1, 4⟩, 1), (⟨2024, 1, 5⟩, 1),
       (⟨2024, 1, 6⟩, 1), (⟨2024, 1, 7⟩, 1), (⟨2024, 1, 8⟩, 1)] from by decide]
    norm_num [List.map_cons, List.map_nil, List.sum_cons, List.sum_nil]
  have hb3 : bucketSum Freq.wmon c6Rows 19737 = 2 := by
    unfold bucketSum
    rw [show c6Rows.filter (fun r => bucketKey Freq.wmon r.1 = 19737) =
      [(⟨2024, 1, 9⟩, (1:ℚ)), (⟨2024, 1, 10⟩, 1)] from by decide]
    norm_num [List.map_cons, List.map_nil, List.sum_cons, List.sum_nil]
  simp only [kpiSeriesOf]
  rw [hsort]
  rw [if_neg (by decide)]
  simp only [resampleSum]
  rw [hgrid]
  simp only [List.map_cons, List.map_nil]
  rw [hb1, hb2, hb3]

set_option maxRecDepth 8000 in
/-- C7 witness: on the concrete ten-day table the previous bucket sums
to 7 and the last to 2, and the signed percent entry appears. -/
theorem c7_witness :
    ∃ l, compute_kpis c6Table (some "d") (some "m") = Except.ok l ∧
      (¬ (7:ℚ) = 0 →
        ("Change vs prev period", Val.pctFmt (((2:ℚ) - 7) / |(7:ℚ)| * 100)) ∈ l) ∧
      ((7:ℚ) = 0 → ("Change vs prev period", Val.dash) ∈ l) := by
  have hser := c7_series_eval
  exact c7_trend_entry c6Table "d" "m" _ _ (by decide) (by decide) rfl rfl rfl
    (by
      intro x hx
      simp at hx
      rcases hx with h | h | h | h | h | h | h | h | h | h <;> (rw [h]; simp [cellFits]))
    rfl c6Rows (by decide) (by decide) (by rw [hser]; decide)
    (19737, 2) (19730, 7) (by rw [hser]; rfl) (by rw [hser]; rfl)

/-- C8 witness: with only two jointly non-missing rows no
Change-vs-prev-period entry is emitted. -/
theorem c8_witness :
    ∃ l, compute_kpis
        [⟨"d", Dtype.datetime, [Cell.date ⟨2024, 1, 1⟩, Cell.date ⟨2024, 1, 2⟩]⟩,
         ⟨"m", Dtype.numeric, [Cell.num 1, Cell.num 2]⟩]
        (some "d") (some "m") = Except.ok l ∧
      ∀ v, ("Change vs prev period", v) ∉ l := by
  exact c8_trend_guard _ "d" "m" _ _ (by decide) (by decide) rfl rfl rfl
    (by
      intro x hx
      simp at hx
      rcases hx with h | h <;> (rw [h]; simp [cellFits]))
    rfl (Or.inl (by decide))

end DC
